import Mathlib

/-!
Verification of the nanocode-cpp LLM client core: the canonical JSON data
model (`boost::json` values), the OpenAI payload builder and response
normalizer (`src/agent.cpp`), and the streaming SSE decoder and buffered
response handling of `send_request` (`src/llm_client.cpp`).

JSON values are modelled with integral numbers only (`int64`/`uint64` kinds
of `boost::json::value`); floating-point numbers are out of scope. Objects
keep insertion order, as `boost::json::object` does.
-/

set_option maxHeartbeats 1000000

-- Model of a `boost::json::value`. `jarr`/`jobj` use a mutual family
-- instead of nested `List` so that all recursions stay structural.
mutual
inductive Jv where
  | jnull
  | jbool (b : Bool)
  | jnum (n : Int)
  | jstr (s : String)
  | jarr (elems : JItems)
  | jobj (members : JFields)
  deriving DecidableEq
inductive JItems where
  | nil
  | cons (hd : Jv) (tl : JItems)
  deriving DecidableEq
inductive JFields where
  | nil
  | cons (key : String) (val : Jv) (tl : JFields)
  deriving DecidableEq
end

/-- Convert a model array to a `List` of its elements. -/
def JItems.toList : JItems → List Jv
  | .nil => []
  | .cons v t => v :: t.toList

/-- Build a model array from a `List` of elements. -/
def JItems.ofList : List Jv → JItems
  | [] => .nil
  | v :: t => .cons v (JItems.ofList t)

/-- Convert a model object to its ordered member list. -/
def JFields.toList : JFields → List (String × Jv)
  | .nil => []
  | .cons k v t => (k, v) :: t.toList

/-- Build a model object from an ordered member list. -/
def JFields.ofList : List (String × Jv) → JFields
  | [] => .nil
  | (k, v) :: t => .cons k v (JFields.ofList t)

@[simp] theorem JItems.toList_of_list_items (l : List Jv) : (JItems.ofList l).toList = l := by
  induction l with
  | nil => rfl
  | cons v t ih => simp [JItems.ofList, JItems.toList, ih]

@[simp] theorem JFields.toList_of_list_fields (l : List (String × Jv)) : (JFields.ofList l).toList = l := by
  induction l with
  | nil => rfl
  | cons kv t ih => cases kv; simp [JFields.ofList, JFields.toList, ih]

@[simp] theorem JItems.ofList_of_items : ∀ a : JItems, JItems.ofList a.toList = a
  | .nil => rfl
  | .cons v t => by simp [JItems.ofList, JItems.toList, JItems.ofList_of_items t]

@[simp] theorem JFields.ofList_of_fields : ∀ o : JFields, JFields.ofList o.toList = o
  | .nil => rfl
  | .cons k v t => by simp [JFields.ofList, JFields.toList, JFields.ofList_of_fields t]

/-- Append two member sequences (used to model building objects up in order). -/
def JFields.append (a b : JFields) : JFields :=
  JFields.ofList (a.toList ++ b.toList)

/-- Key lookup in an object, first match (`boost::json::object` holds at most
one entry per key, so first-match lookup models `object::at` / `object::find`). -/
def JFields.get? : JFields → String → Option Jv
  | .nil, _ => none
  | .cons k v t, key => if k = key then some v else t.get? key

/-- Model of `boost::json::object::contains`. -/
def JFields.containsKey (o : JFields) (key : String) : Bool :=
  (o.get? key).isSome

/-- Model of `boost::json::object::at`, which throws `std::out_of_range` when
the key is absent; exceptions are modelled with `Except String`. -/
def JFields.atKey (o : JFields) (key : String) : Except String Jv :=
  match o.get? key with
  | some v => .ok v
  | none => .error ("out_of_range: key not found: " ++ key)

/-- Model of `object::operator[] =`: replace the value at the key in place if
present (keeping its position), otherwise append a new member at the end. -/
def JFields.set : JFields → String → Jv → JFields
  | .nil, key, v => .cons key v .nil
  | .cons k w t, key, v => if k = key then .cons k v t else .cons k w (t.set key v)

/-- Model of `value::as_object`, which throws unless the value is an object. -/
def Jv.asObj : Jv → Except String JFields
  | .jobj o => .ok o
  | _ => .error "bad_cast: not an object"

/-- Model of `value::as_array`, which throws unless the value is an array. -/
def Jv.asArr : Jv → Except String JItems
  | .jarr a => .ok a
  | _ => .error "bad_cast: not an array"

/-- Model of `value::as_string` (then `c_str()` conversion), which throws
unless the value is a string. -/
def Jv.asStr : Jv → Except String String
  | .jstr s => .ok s
  | _ => .error "bad_cast: not a string"

/-- Model of `value::is_object`. -/
def Jv.isObj : Jv → Bool
  | .jobj _ => true
  | _ => false

/-- Model of `value::is_string`. -/
def Jv.isStr : Jv → Bool
  | .jstr _ => true
  | _ => false

/-- Model of `value::is_array`. -/
def Jv.isArr : Jv → Bool
  | .jarr _ => true
  | _ => false

/-! ## Monad-operation reduction lemmas for `Except` -/

@[simp] theorem exceptOkBind {ε α β : Type} (a : α) (f : α → Except ε β) :
    (Except.ok a >>= f) = f a := rfl

@[simp] theorem exceptErrorBind {ε α β : Type} (e : ε) (f : α → Except ε β) :
    ((Except.error e : Except ε α) >>= f) = Except.error e := rfl

@[simp] theorem exceptBindOk' {ε α β : Type} (a : α) (f : α → Except ε β) :
    (Except.ok a).bind f = f a := rfl

@[simp] theorem exceptBindError' {ε α β : Type} (e : ε) (f : α → Except ε β) :
    ((Except.error e : Except ε α)).bind f = Except.error e := rfl

@[simp] theorem exceptPureEq {ε α : Type} (a : α) :
    (pure a : Except ε α) = Except.ok a := rfl

@[simp] theorem jvAsObjJobj (o : JFields) : (Jv.jobj o).asObj = Except.ok o := rfl

@[simp] theorem jvAsStrJstr (s : String) : (Jv.jstr s).asStr = Except.ok s := rfl

@[simp] theorem jvAsArrJarr (a : JItems) : (Jv.jarr a).asArr = Except.ok a := rfl

@[simp] theorem exceptMapOk' {ε α β : Type} (g : α → β) (a : α) :
    Except.map g (Except.ok a : Except ε α) = Except.ok (g a) := rfl

@[simp] theorem exceptMapError' {ε α β : Type} (g : α → β) (e : ε) :
    Except.map g (Except.error e : Except ε α) = Except.error e := rfl

@[simp] theorem exceptMapOk {ε α β : Type} (g : α → β) (a : α) :
    (g <$> (Except.ok a : Except ε α)) = Except.ok (g a) := rfl

@[simp] theorem exceptMapError {ε α β : Type} (g : α → β) (e : ε) :
    (g <$> (Except.error e : Except ε α)) = Except.error e := rfl

/-! ## Serialization: model of `boost::json::serialize` -/

/-- The character of a decimal digit `d < 10`. -/
def digitChar (d : Nat) : Char := Char.ofNat (48 + d)

/-- Decimal digit characters of `n`, most significant first. -/
def natChars (n : Nat) : List Char :=
  if _h : n < 10 then [digitChar n]
  else natChars (n / 10) ++ [digitChar (n % 10)]
termination_by n
decreasing_by omega

/-- Characters of an integer: optional minus sign, then decimal digits. -/
def intChars (i : Int) : List Char :=
  if i < 0 then '-' :: natChars i.natAbs else natChars i.natAbs

/-- Lower-case hexadecimal digit character for `d < 16`. -/
def hexDigitChar (d : Nat) : Char :=
  if d < 10 then Char.ofNat (48 + d) else Char.ofNat (87 + d)

/-- JSON escaping of one character: quote and backslash get two-character
escapes, control characters get a `\u00XY` escape, everything else passes
through unchanged. -/
def escChar (c : Char) : List Char :=
  if c = '"' then ['\\', '"']
  else if c = '\\' then ['\\', '\\']
  else if c.toNat < 32 then
    ['\\', 'u', '0', '0', hexDigitChar (c.toNat / 16), hexDigitChar (c.toNat % 16)]
  else [c]

/-- Characters of a serialized JSON string: quoted and escaped. -/
def strChars (s : String) : List Char :=
  '"' :: (s.data.flatMap escChar ++ ['"'])

mutual
/-- Characters of a serialized JSON value, without extra whitespace, as
`boost::json::serialize` produces. -/
def serL : Jv → List Char
  | .jnull => "null".data
  | .jbool true => "true".data
  | .jbool false => "false".data
  | .jnum n => intChars n
  | .jstr s => strChars s
  | .jarr es => '[' :: (serItems es ++ [']'])
  | .jobj ms => '{' :: (serFields ms ++ ['}'])
/-- Characters of comma-separated serialized array elements. -/
def serItems : JItems → List Char
  | .nil => []
  | .cons e .nil => serL e
  | .cons e es => serL e ++ ',' :: serItems es
/-- Characters of comma-separated serialized object members. -/
def serFields : JFields → List Char
  | .nil => []
  | .cons k v .nil => strChars k ++ ':' :: serL v
  | .cons k v ms => strChars k ++ ':' :: serL v ++ ',' :: serFields ms
end

/-- Model of `boost::json::serialize`. -/
def jserialize (v : Jv) : String := String.mk (serL v)

/-! ## Parsing: model of `boost::json::parse` -/

/-- JSON whitespace. -/
def wsChar (c : Char) : Bool := c == ' ' || c == '\n' || c == '\t' || c == '\r'

/-- Decimal digit test. -/
def digChar (c : Char) : Bool := '0' ≤ c && c ≤ '9'

/-- Drop leading whitespace. -/
def scanWs : List Char → List Char
  | c :: cs => if wsChar c then scanWs cs else c :: cs
  | [] => []

/-- Split off the longest leading run of decimal digits. -/
def scanDigits : List Char → List Char × List Char
  | c :: cs =>
    if digChar c then
      let (ds, r) := scanDigits cs
      (c :: ds, r)
    else ([], c :: cs)
  | [] => ([], [])

/-- The number denoted by a run of decimal digit characters. -/
def digitsVal (ds : List Char) : Nat :=
  ds.foldl (fun a c => a * 10 + (c.toNat - 48)) 0

/-- The value of one hexadecimal digit character, if it is one. -/
def hexDigitVal (c : Char) : Option Nat :=
  if '0' ≤ c && c ≤ '9' then some (c.toNat - 48)
  else if 'a' ≤ c && c ≤ 'f' then some (c.toNat - 87)
  else if 'A' ≤ c && c ≤ 'F' then some (c.toNat - 55)
  else none

/-- The character a short escape denotes, if valid. -/
def unescChar (e : Char) : Option Char :=
  if e = '"' ∨ e = '\\' ∨ e = '/' then some e
  else if e = 'n' then some '\n'
  else if e = 'r' then some '\r'
  else if e = 't' then some '\t'
  else if e = 'b' then some (Char.ofNat 8)
  else if e = 'f' then some (Char.ofNat 12)
  else none

/-- Scan a JSON string body after the opening quote, unescaping as it goes;
`acc` holds the characters read so far, in reverse. -/
def scanStr (acc : List Char) : List Char → Option (String × List Char)
  | '"' :: r => some (String.mk acc.reverse, r)
  | '\\' :: 'u' :: h1 :: h2 :: h3 :: h4 :: r =>
    match hexDigitVal h1, hexDigitVal h2, hexDigitVal h3, hexDigitVal h4 with
    | some a, some b, some c, some d =>
      scanStr (Char.ofNat (((a * 16 + b) * 16 + c) * 16 + d) :: acc) r
    | _, _, _, _ => none
  | '\\' :: e :: r =>
    match unescChar e with
    | some ch => scanStr (ch :: acc) r
    | none => none
  | c :: r => scanStr (c :: acc) r
  | [] => none

mutual
/-- Parse one JSON value (fuelled; every recursive call passes one unit less,
so the recursion is structural and the definitions reduce by computation). -/
def pVal : Nat → List Char → Option (Jv × List Char)
  | 0, _ => none
  | f + 1, cs =>
    match scanWs cs with
    | 'n' :: 'u' :: 'l' :: 'l' :: r => some (.jnull, r)
    | 't' :: 'r' :: 'u' :: 'e' :: r => some (.jbool true, r)
    | 'f' :: 'a' :: 'l' :: 's' :: 'e' :: r => some (.jbool false, r)
    | '"' :: r =>
      match scanStr [] r with
      | some (s, r1) => some (.jstr s, r1)
      | none => none
    | '[' :: r =>
      match scanWs r with
      | ']' :: r1 => some (.jarr .nil, r1)
      | cs1 =>
        match pItems f cs1 with
        | some (es, r1) => some (.jarr es, r1)
        | none => none
    | '{' :: r =>
      match scanWs r with
      | '}' :: r1 => some (.jobj .nil, r1)
      | cs1 =>
        match pFields f cs1 with
        | some (ms, r1) => some (.jobj ms, r1)
        | none => none
    | '-' :: r =>
      match scanDigits r with
      | ([], _) => none
      | (ds, r1) => some (.jnum (-(digitsVal ds : Int)), r1)
    | c :: r =>
      if digChar c then
        match scanDigits (c :: r) with
        | (ds, r1) => some (.jnum (digitsVal ds : Int), r1)
      else none
    | [] => none
/-- Parse one-or-more comma-separated array elements up to the closing
bracket (the empty array is handled in `pVal`). -/
def pItems : Nat → List Char → Option (JItems × List Char)
  | 0, _ => none
  | f + 1, cs =>
    match pVal f cs with
    | none => none
    | some (v, r) =>
      match scanWs r with
      | ',' :: r1 =>
        match pItems f r1 with
        | some (es, r2) => some (.cons v es, r2)
        | none => none
      | ']' :: r1 => some (.cons v .nil, r1)
      | _ => none
/-- Parse one-or-more comma-separated object members up to the closing
brace (the empty object is handled in `pVal`). -/
def pFields : Nat → List Char → Option (JFields × List Char)
  | 0, _ => none
  | f + 1, cs =>
    match scanWs cs with
    | '"' :: r =>
      match scanStr [] r with
      | none => none
      | some (k, r1) =>
        match scanWs r1 with
        | ':' :: r2 =>
          match pVal f r2 with
          | none => none
          | some (v, r3) =>
            match scanWs r3 with
            | ',' :: r4 =>
              match pFields f r4 with
              | some (ms, r5) => some (.cons k v ms, r5)
              | none => none
            | '}' :: r4 => some (.cons k v .nil, r4)
            | _ => none
        | _ => none
    | _ => none
end

/-- Parse a whole character sequence as one JSON document (trailing
whitespace allowed, anything else rejected). -/
def jparseL (cs : List Char) : Option Jv :=
  match pVal (cs.length + 1) cs with
  | some (v, r) => if scanWs r = [] then some v else none
  | none => none

/-- Model of `boost::json::parse` (the non-throwing overload returns an error
code, the throwing one throws; both are modelled by `Option` at call sites). -/
def jparse (s : String) : Option Jv := jparseL s.data

example : jparse "\x7b\"cmd\":\"ls\"\x7d" =
    some (.jobj (.cons "cmd" (.jstr "ls") .nil)) := by decide

example : jparse "\x7bbroken" = none := by decide

example : jparse "[true, null]" =
    some (.jarr (.cons (.jbool true) (.cons .jnull .nil))) := by decide

example : jserialize (.jobj (.cons "cmd" (.jstr "ls") .nil)) = "\x7b\"cmd\":\"ls\"\x7d" := by
  simp [jserialize, serL, serFields, strChars]
  decide

/-! ## The streaming decoder of `send_request` (`src/llm_client.cpp:163-316`) -/

/-- Which wire format a request uses (`LLMConfig.is_anthropic_format` /
`is_openai_format`; exactly one is set by `Agent::get_llm_config`). -/
inductive LlmFormat where
  | anthropic
  | openai
  deriving DecidableEq

/-- The event-level decoder state of one streamed response: the accumulated
text, the completed tool-call blocks, the open tool-call accumulator of
either style, its argument buffer, and the side channel of text fragments
handed to `on_chunk` (in order). The pending partial line lives one level up,
in `StreamSt`. -/
structure DecodeSt where
  final_text : String
  anthropic_content : List Jv
  openai_tool_calls : List Jv
  current_anthropic_tool : JFields
  current_openai_tool : JFields
  current_tool_args : String
  emitted : List String
  deriving DecidableEq

/-- The event-level state at the start of a streamed response. -/
def initDec : DecodeSt :=
  { final_text := ""
    anthropic_content := []
    openai_tool_calls := []
    current_anthropic_tool := .nil
    current_openai_tool := .nil
    current_tool_args := ""
    emitted := [] }

/-- The full read-loop state: the pending partial line (what remains of
`accumulated_body` after every complete line is consumed) plus the
event-level state. -/
structure StreamSt where
  accumulated_body : List Char
  dec : DecodeSt
  deriving DecidableEq

/-- The decoder state at the start of a streamed response. -/
def initSt : StreamSt :=
  { accumulated_body := [], dec := initDec }

/-- One OpenAI-style tool-call delta (`llm_client.cpp:255-278`): a delta
carrying an `id` first flushes the open accumulator, then opens a fresh one
with that `id` and `function.name`; a delta carrying `function.arguments`
appends the fragment to the argument buffer. -/
def processToolCallDelta (st : DecodeSt) (tc_val : Jv) : Except String DecodeSt := do
  let tc ← tc_val.asObj
  let st1 ←
    if tc.containsKey "id" then do
      let st0 ←
        if st.current_openai_tool ≠ .nil then do
          let fno ← (← st.current_openai_tool.atKey "function").asObj
          let tool := st.current_openai_tool.set "function"
            (.jobj (fno.set "arguments" (.jstr st.current_tool_args)))
          pure { st with
            openai_tool_calls := st.openai_tool_calls ++ [.jobj tool],
            current_openai_tool := tool }
        else pure st
      let i ← tc.atKey "id"
      let nm ← (← (← tc.atKey "function").asObj).atKey "name"
      pure { st0 with
        current_openai_tool := JFields.ofList
          [("id", i), ("type", .jstr "function"),
           ("function", .jobj (JFields.ofList [("name", nm), ("arguments", .jstr "")]))],
        current_tool_args := "" }
    else pure st
  if tc.containsKey "function" then do
    let fno ← (← tc.atKey "function").asObj
    if fno.containsKey "arguments" then do
      let a ← (← fno.atKey "arguments").asStr
      pure { st1 with current_tool_args := st1.current_tool_args ++ a }
    else pure st1
  else pure st1

/-- One parsed `data:` event object (`llm_client.cpp:207-282`), branching on
the provider format. Thrown `boost::json` exceptions (a missing field via
`at`, a wrong kind via `as_*`, an unparsable accumulated argument buffer) are
modelled as `Except.error`. -/
def processEvent (fmt : LlmFormat) (st : DecodeSt) (obj : JFields) : Except String DecodeSt :=
  match fmt with
  | .anthropic =>
    if obj.containsKey "type" then do
      let ty ← (← obj.atKey "type").asStr
      if ty = "content_block_start" then do
        let block ← (← obj.atKey "content_block").asObj
        let bty ← (← block.atKey "type").asStr
        if bty = "tool_use" then do
          let i ← block.atKey "id"
          let nm ← block.atKey "name"
          pure { st with
            current_anthropic_tool := JFields.ofList
              [("type", .jstr "tool_use"), ("id", i), ("name", nm), ("input", .jobj .nil)],
            current_tool_args := "" }
        else pure st
      else if ty = "content_block_delta" then do
        let delta ← (← obj.atKey "delta").asObj
        let dty ← (← delta.atKey "type").asStr
        if dty = "text_delta" then do
          let t ← (← delta.atKey "text").asStr
          pure { st with final_text := st.final_text ++ t, emitted := st.emitted ++ [t] }
        else if dty = "input_json_delta" then do
          let pj ← (← delta.atKey "partial_json").asStr
          pure { st with current_tool_args := st.current_tool_args ++ pj }
        else pure st
      else if ty = "content_block_stop" then
        if st.current_anthropic_tool ≠ .nil then do
          let tool ←
            if st.current_tool_args ≠ "" then
              match jparse st.current_tool_args with
              | some v => pure (st.current_anthropic_tool.set "input" v)
              | none => Except.error "json parse error"
            else pure st.current_anthropic_tool
          pure { st with
            anthropic_content := st.anthropic_content ++ [.jobj tool],
            current_anthropic_tool := .nil }
        else pure st
      else pure st
    else pure st
  | .openai =>
    match obj.get? "choices" with
    | some (.jarr (.cons c0 _)) => do
      let choice ← c0.asObj
      match choice.get? "delta" with
      | some (.jobj delta) => do
        let st1 ←
          match delta.get? "content" with
          | some (.jstr t) =>
            pure { st with final_text := st.final_text ++ t, emitted := st.emitted ++ [t] }
          | _ => pure st
        match delta.get? "tool_calls" with
        | some (.jarr tcs) => tcs.toList.foldlM processToolCallDelta st1
        | _ => pure st1
      | _ => pure st
    | _ => pure st

/-- Strip one trailing carriage return (`llm_client.cpp:192-193`). -/
def stripCr (l : List Char) : List Char :=
  if l.getLast? = some '\r' then l.dropLast else l

/-- One complete line of the body (`llm_client.cpp:190-283`): strip `\r`; a
line not starting with the six characters of the SSE data marker is ignored;
a `[DONE]` payload is a no-op; a payload failing JSON parse, or parsing to a
non-object, is silently skipped; otherwise dispatch the event object. -/
def processLine (fmt : LlmFormat) (st : DecodeSt) (rawLine : List Char) :
    Except String DecodeSt :=
  match stripCr rawLine with
  | 'd' :: 'a' :: 't' :: 'a' :: ':' :: ' ' :: dataStr =>
    if dataStr = "[DONE]".data then pure st
    else
      match jparseL dataStr with
      | some (.jobj obj) => processEvent fmt st obj
      | some _ => pure st
      | none => pure st
  | _ => pure st

/-- Split into complete newline-terminated lines (newline removed) and the
trailing partial line, mirroring the inner `while find('\n')` loop
(`llm_client.cpp:188-191`): a partial line is kept, unconsumed, in the
buffer. -/
def splitNl : List Char → List (List Char) × List Char
  | [] => ([], [])
  | c :: cs =>
    let (ls, rest) := splitNl cs
    if c = '\n' then ([] :: ls, rest)
    else
      match ls with
      | [] => ([], c :: rest)
      | l :: ls1 => ((c :: l) :: ls1, rest)

/-- One network read handing `chunk` to the decoder (`llm_client.cpp:175-285`):
append to the pending buffer, consume every complete line, keep the partial
tail buffered. -/
def feedChunk (fmt : LlmFormat) (st : StreamSt) (chunk : String) : Except String StreamSt := do
  let (lines, rest) := splitNl (st.accumulated_body ++ chunk.data)
  let d ← lines.foldlM (processLine fmt) st.dec
  pure { accumulated_body := rest, dec := d }

/-- The whole read loop over the chunk sequence of one response body. -/
def runStream (fmt : LlmFormat) (chunks : List String) : Except String StreamSt :=
  chunks.foldlM (feedChunk fmt) initSt

/-- The end-of-stream flush of a still-open OpenAI tool-call accumulator
(`llm_client.cpp:287-291`, and the same mid-stream at 258-262): write the
accumulated arguments into the call and append it to the completed list. -/
def flushOpenaiTool (st : DecodeSt) : Except String DecodeSt :=
  if st.current_openai_tool ≠ .nil then do
    let fno ← (← st.current_openai_tool.atKey "function").asObj
    let tool := st.current_openai_tool.set "function"
      (.jobj (fno.set "arguments" (.jstr st.current_tool_args)))
    pure { st with
      openai_tool_calls := st.openai_tool_calls ++ [.jobj tool],
      current_openai_tool := tool }
  else pure st

/-- The Anthropic-style text block built at final assembly. -/
def textBlock (t : String) : Jv :=
  .jobj (JFields.ofList [("type", .jstr "text"), ("text", .jstr t)])

/-- Final assembly of the decoded response (`llm_client.cpp:293-307`):
Anthropic-style prepends a single text block to the completed tool blocks
when `final_text` is non-empty; OpenAI-style synthesizes a
`choices[0].message` carrying `content` and `tool_calls` only when
non-empty. -/
def assembleResp (fmt : LlmFormat) (st : DecodeSt) : Jv :=
  match fmt with
  | .anthropic =>
    let content :=
      (if st.final_text ≠ "" then [textBlock st.final_text] else []) ++ st.anthropic_content
    .jobj (.cons "content" (.jarr (JItems.ofList content)) .nil)
  | .openai =>
    let msgFields :=
      (JFields.ofList [("role", .jstr "assistant")]).append
        ((if st.final_text ≠ "" then JFields.ofList [("content", .jstr st.final_text)] else .nil).append
          (if st.openai_tool_calls ≠ [] then
            JFields.ofList [("tool_calls", .jarr (JItems.ofList st.openai_tool_calls))]
          else .nil))
    .jobj (.cons "choices"
      (.jarr (.cons (.jobj (.cons "message" (.jobj msgFields) .nil)) .nil)) .nil)

/-- The full streaming decode of one response body: run the read loop, flush
any open OpenAI accumulator, assemble, and also report the emitted text
fragments. -/
def decodeStream (fmt : LlmFormat) (chunks : List String) :
    Except String (Jv × List String) := do
  let st ← runStream fmt chunks
  let d ← match fmt with
    | .openai => flushOpenaiTool st.dec
    | .anthropic => pure st.dec
  pure (assembleResp fmt d, d.emitted)

/-! ## Error values of `send_request` -/

/-- The non-success HTTP status error (`llm_client.cpp:158-160`). -/
def httpStatusErrStr (code : Nat) (body : String) : String :=
  "HTTP Error " ++ toString code ++ ": " ++ body

/-- The catch-all wrapper around any exception escaping the request/decode
(DNS, connect, TLS, a read error, a decoder exception; `llm_client.cpp:314-315`). -/
def caughtErrStr (what : String) : String := "HTTP Error: " ++ what

/-- The buffered-path top-level JSON parse error (`llm_client.cpp:121-123`),
carrying the raw body. -/
def parseErrStr (msg body : String) : String :=
  "JSON Parse Error: " ++ msg ++ "\nResponse body:\n" ++ body

/-- The buffered-path unexpected-shape error (`llm_client.cpp:129-132`),
carrying the raw body. -/
def shapeErrStr (body : String) : String :=
  "API Response is not a JSON object nor an object array.\nResponse body:\n" ++ body

/-- The buffered (non-streaming) response handling (`llm_client.cpp:118-134`):
parse the whole body; unwrap a non-empty array whose first element is an
object; reject any other non-object with a shape error; return the object. -/
def decodeBuffered (body : String) : Except String Jv :=
  match jparse body with
  | none => .error (parseErrStr "syntax error" body)
  | some parsed =>
    match parsed with
    | .jarr (.cons (.jobj o) _) => .ok (.jobj o)
    | .jobj o => .ok (.jobj o)
    | _ => .error (shapeErrStr body)

/-- The streaming path of `send_request` after the request is written: a
non-success status returns the HTTP status error; otherwise the body is
decoded, and any exception the decoder throws is caught by the top-level
handler and returned as a `HTTP Error: ` string (`llm_client.cpp:141-316`). -/
def sendStreaming (fmt : LlmFormat) (status : Nat) (statusBody : String)
    (chunks : List String) : Except String Jv :=
  if status ≠ 200 then .error (httpStatusErrStr status statusBody)
  else
    match decodeStream fmt chunks with
    | .ok (v, _) => .ok v
    | .error e => .error (caughtErrStr e)

/-! ## The OpenAI payload builder (`src/agent.cpp:65-145`) -/

/-- The translated assistant message object (`agent.cpp:130-135`): `role`
always, `content` only when the concatenated text is non-empty, `tool_calls`
only when some were collected, in that insertion order. -/
def assistantMsgFields (text_content : String) (tool_calls : List Jv) : JFields :=
  (JFields.ofList [("role", Jv.jstr "assistant")]).append
    (((if text_content ≠ "" then JFields.ofList [("content", Jv.jstr text_content)] else .nil)).append
      (if tool_calls ≠ [] then
        JFields.ofList [("tool_calls", Jv.jarr (JItems.ofList tool_calls))]
      else .nil))

/-- One content block of an assistant message with array content
(`agent.cpp:114-129`): text blocks concatenate into the accumulated string,
`tool_use` blocks append an OpenAI `tool_calls` entry whose `arguments` is
the JSON serialization of `input`. -/
def translateBlockFold (acc : String × List Jv) (block_val : Jv) :
    Except String (String × List Jv) := do
  let block ← block_val.asObj
  let ty ← (← block.atKey "type").asStr
  if ty = "text" then do
    let t ← (← block.atKey "text").asStr
    pure (acc.1 ++ t, acc.2)
  else if ty = "tool_use" then do
    let nm ← block.atKey "name"
    let inp ← block.atKey "input"
    let i ← block.atKey "id"
    pure (acc.1, acc.2 ++ [Jv.jobj (JFields.ofList
      [("id", i), ("type", .jstr "function"),
       ("function", .jobj (JFields.ofList
         [("name", nm), ("arguments", .jstr (jserialize inp))]))])])
  else pure acc

/-- One item of a user message with array content (`agent.cpp:100-107`):
`tool_result` blocks become their own tool message, anything else is
skipped. -/
def toolResultFold (acc : List Jv) (item_val : Jv) : Except String (List Jv) := do
  let item ← item_val.asObj
  let ty ← (← item.atKey "type").asStr
  if ty = "tool_result" then do
    let tuid ← item.atKey "tool_use_id"
    let c ← item.atKey "content"
    pure (acc ++ [Jv.jobj (JFields.ofList
      [("role", .jstr "tool"), ("tool_call_id", tuid), ("content", c)])])
  else pure acc

/-- Translation of one canonical message into zero or more OpenAI-style
messages, appended to the accumulated list (`agent.cpp:90-142`). -/
def translateOneMsg (msgs : List Jv) (m_val : Jv) : Except String (List Jv) := do
  let m ← m_val.asObj
  let role ← (← m.atKey "role").asStr
  if role = "user" then do
    let content ← m.atKey "content"
    match content with
    | .jstr s =>
      pure (msgs ++ [Jv.jobj (JFields.ofList [("role", .jstr "user"), ("content", .jstr s)])])
    | .jarr items =>
      items.toList.foldlM toolResultFold msgs
    | _ => pure msgs
  else if role = "assistant" then do
    let content ← m.atKey "content"
    match content with
    | .jarr blocks => do
      let tc ← blocks.toList.foldlM translateBlockFold ("", [])
      pure (msgs ++ [Jv.jobj (assistantMsgFields tc.1 tc.2)])
    | .jstr s =>
      pure (msgs ++ [Jv.jobj (JFields.ofList [("role", .jstr "assistant"), ("content", .jstr s)])])
    | _ => pure msgs
  else pure msgs

/-- The leading synthetic system message (`agent.cpp:88`). -/
def systemMsgJv (system_prompt : String) : Jv :=
  .jobj (JFields.ofList [("role", .jstr "system"), ("content", .jstr system_prompt)])

/-- The message-list part of `Agent::build_openai_payload` (`agent.cpp:86-143`):
a synthetic leading system message, then each canonical message translated in
order. -/
def buildOpenaiMsgs (system_prompt : String) (messages : List Jv) :
    Except String (List Jv) :=
  messages.foldlM translateOneMsg [systemMsgJv system_prompt]

/-! ## The response normalizer (`src/agent.cpp:147-189`) -/

/-- One entry of `message.tool_calls` (`agent.cpp:169-182`): entries whose
`type` is `function` become a canonical `tool_use` block whose `input` is the
`arguments` string parsed back into a JSON object; others are skipped. -/
def normalizeToolCall (blocks : List Jv) (tc_val : Jv) : Except String (List Jv) := do
  let tc ← tc_val.asObj
  let ty ← (← tc.atKey "type").asStr
  if ty = "function" then do
    let func ← (← tc.atKey "function").asObj
    let i ← tc.atKey "id"
    let nm ← func.atKey "name"
    let argsStr ← (← func.atKey "arguments").asStr
    let inp ←
      match jparse argsStr with
      | some v => v.asObj
      | none => Except.error "json parse error"
    pure (blocks ++ [Jv.jobj (JFields.ofList
      [("type", .jstr "tool_use"), ("id", i), ("name", nm), ("input", .jobj inp)])])
  else pure blocks

/-- Model of `Agent::normalize_openai_response` (`agent.cpp:147-189`): locate
`choices[0].message`; a string `content` becomes one text block; `tool_calls`
entries become `tool_use` blocks; the result is wrapped as an Anthropic-style
`content` array. -/
def normalizeOpenaiResp (raw : JFields) : Except String Jv := do
  let blocks ←
    match raw.get? "choices" with
    | some (.jarr (.cons c0 _)) => do
      let message ← (← (← c0.asObj).atKey "message").asObj
      let tblocks :=
        match message.get? "content" with
        | some (.jstr s) => [textBlock s]
        | _ => []
      match message.get? "tool_calls" with
      | some (.jarr tcs) => tcs.toList.foldlM normalizeToolCall tblocks
      | _ => pure tblocks
    | _ => pure []
  pure (.jobj (.cons "content" (.jarr (JItems.ofList blocks)) .nil))

/-! ## The typed canonical conversation model (spec section 3) -/

/-- A canonical content block. -/
inductive ContentBlock where
  | text (t : String)
  | toolUse (id name : String) (input : Jv)
  | toolResult (tool_use_id content : String)

/-- The canonical JSON encoding of a content block (the Anthropic wire shape,
which the conversation list stores directly). -/
def encodeBlock : ContentBlock → Jv
  | .text t => .jobj (JFields.ofList [("type", .jstr "text"), ("text", .jstr t)])
  | .toolUse i nm inp => .jobj (JFields.ofList
      [("type", .jstr "tool_use"), ("id", .jstr i), ("name", .jstr nm), ("input", inp)])
  | .toolResult tuid c => .jobj (JFields.ofList
      [("type", .jstr "tool_result"), ("tool_use_id", .jstr tuid), ("content", .jstr c)])

/-- A canonical message role (as stored in the conversation list). -/
inductive ChatRole where
  | user
  | assistant

/-- Canonical message content: a plain string or a block array. -/
inductive MsgContent where
  | str (s : String)
  | blocks (bs : List ContentBlock)

/-- A canonical conversation message. -/
structure ChatMsg where
  role : ChatRole
  content : MsgContent

/-- The canonical JSON encoding of a message. -/
def encodeMsg (m : ChatMsg) : Jv :=
  .jobj (JFields.ofList
    [("role", .jstr (match m.role with | .user => "user" | .assistant => "assistant")),
     ("content",
       match m.content with
       | .str s => .jstr s
       | .blocks bs => .jarr (JItems.ofList (bs.map encodeBlock)))])

/-! ## The spec-side description of the OpenAI message translation

These definitions restate the translation the way the spec describes it
(section 4.1); the refinement theorem for C9 compares them with the
embedding of `Agent::build_openai_payload` above. -/

/-- Spec: a `ToolResult` block becomes its own tool message. -/
def toolResultMsg? : ContentBlock → Option Jv
  | .toolResult tuid c => some (.jobj (JFields.ofList
      [("role", .jstr "tool"), ("tool_call_id", .jstr tuid), ("content", .jstr c)]))
  | _ => none

/-- Spec: a `ToolUse` block becomes one `tool_calls` entry with `arguments`
the JSON serialization of `input`. -/
def specToolCallOf : ContentBlock → Option Jv
  | .toolUse i nm inp => some (.jobj (JFields.ofList
      [("id", .jstr i), ("type", .jstr "function"),
       ("function", .jobj (JFields.ofList
         [("name", .jstr nm), ("arguments", .jstr (jserialize inp))]))]))
  | _ => none

/-- Spec: the text a block contributes to the concatenated `content`. -/
def specTextOf : ContentBlock → String
  | .text t => t
  | _ => ""

/-- Spec: the translated assistant message — `content` omitted when the
concatenation is empty, `tool_calls` omitted when empty. -/
def specAsstMsg (txt : String) (calls : List Jv) : Jv :=
  .jobj (JFields.ofList
    ([("role", Jv.jstr "assistant")]
      ++ (if txt = "" then [] else [("content", Jv.jstr txt)])
      ++ (if calls = [] then [] else [("tool_calls", Jv.jarr (JItems.ofList calls))])))

/-- Spec: the message-by-message translation of section 4.1. -/
def specTranslateMsg : ChatMsg → List Jv
  | ⟨.user, .str s⟩ =>
    [.jobj (JFields.ofList [("role", .jstr "user"), ("content", .jstr s)])]
  | ⟨.user, .blocks bs⟩ => bs.filterMap toolResultMsg?
  | ⟨.assistant, .str s⟩ =>
    [.jobj (JFields.ofList [("role", .jstr "assistant"), ("content", .jstr s)])]
  | ⟨.assistant, .blocks bs⟩ =>
    [specAsstMsg ((bs.map specTextOf).foldl (fun a b => a ++ b) "")
       (bs.filterMap specToolCallOf)]

/-! ## The round-trip pipeline (spec section 8, property 1) -/

/-- A synthetic OpenAI response carrying one assistant message, as the
round-trip property constructs it. -/
def syntheticOpenaiResp (assistantMsg : Jv) : JFields :=
  .cons "choices" (.jarr (.cons (.jobj (.cons "message" assistantMsg .nil)) .nil)) .nil

/-- Build an OpenAI payload from one canonical assistant message, wrap the
translated assistant message in a synthetic response, and normalize it back. -/
def roundTripAssistant (system_prompt : String) (blocks : List ContentBlock) :
    Except String Jv := do
  let msgs ← buildOpenaiMsgs system_prompt [encodeMsg ⟨.assistant, .blocks blocks⟩]
  match msgs with
  | [_, m] => normalizeOpenaiResp (syntheticOpenaiResp m)
  | _ => Except.error "unexpected payload shape"

/-! ## Round-trip of the JSON codec: digit lemmas -/

theorem digitChar_spec (d : Nat) (h : d < 10) :
    digChar (digitChar d) = true ∧ (digitChar d).toNat = 48 + d := by
  interval_cases d <;> exact ⟨by decide, by decide⟩

theorem natChars_unfold (n : Nat) :
    natChars n = (if n < 10 then [] else natChars (n / 10)) ++ [digitChar (n % 10)] := by
  rw [natChars.eq_def]
  by_cases h : n < 10
  · simp [h, Nat.mod_eq_of_lt h]
  · simp [h]

theorem natChars_ne_nil (n : Nat) : natChars n ≠ [] := by
  rw [natChars_unfold]; simp

theorem natChars_digits (n : Nat) : ∀ c ∈ natChars n, digChar c = true := by
  induction n using Nat.strongRecOn with
  | _ n ih =>
    rw [natChars_unfold]
    intro c hc
    rcases List.mem_append.mp hc with h1 | h2
    · split at h1
      · simp at h1
      · exact ih (n / 10) (by omega) c h1
    · rw [List.mem_singleton] at h2
      subst h2
      exact (digitChar_spec (n % 10) (by omega)).1

theorem digitsVal_natChars (n : Nat) : digitsVal (natChars n) = n := by
  induction n using Nat.strongRecOn with
  | _ n ih =>
    rw [natChars_unfold]
    unfold digitsVal
    rw [List.foldl_append]
    by_cases h : n < 10
    · simp only [if_pos h, List.foldl_nil, List.foldl_cons]
      rw [(digitChar_spec (n % 10) (by omega)).2]
      omega
    · simp only [if_neg h, List.foldl_cons, List.foldl_nil]
      have hv := ih (n / 10) (by omega)
      unfold digitsVal at hv
      rw [hv, (digitChar_spec (n % 10) (by omega)).2]
      omega

theorem natChars_head (m : Nat) : ∃ d t, d < 10 ∧ natChars m = digitChar d :: t := by
  induction m using Nat.strongRecOn with
  | _ m ih =>
    rw [natChars_unfold]
    by_cases h : m < 10
    · exact ⟨m % 10, [], by omega, by simp [h]⟩
    · obtain ⟨d, t, hd, ht⟩ := ih (m / 10) (by omega)
      exact ⟨d, t ++ [digitChar (m % 10)], hd, by simp [h, ht]⟩

/-- True when the input cannot extend a run of digits: empty or headed by a
non-digit. Every delimiter a serialized value is followed by qualifies. -/
def noDigitHead : List Char → Bool
  | [] => true
  | c :: _ => !digChar c

theorem scanDigits_stop {cs : List Char} (h : noDigitHead cs = true) :
    scanDigits cs = ([], cs) := by
  match cs with
  | [] => rfl
  | c :: t =>
    simp only [noDigitHead, Bool.not_eq_true'] at h
    simp [scanDigits, h]

theorem scanDigits_run (ds rest : List Char) (hds : ∀ c ∈ ds, digChar c = true)
    (hrest : noDigitHead rest = true) : scanDigits (ds ++ rest) = (ds, rest) := by
  induction ds with
  | nil => simpa using scanDigits_stop hrest
  | cons c t ih =>
    have hc : digChar c = true := hds c (by simp)
    have ht := ih (fun x hx => hds x (by simp [hx]))
    simp [scanDigits, hc, ht]

/-! ## Round-trip of the JSON codec: string lemmas -/

theorem hexDigitVal_hexDigitChar (d : Nat) (h : d < 16) :
    hexDigitVal (hexDigitChar d) = some d := by
  interval_cases d <;> decide

theorem scanStr_escChar (c : Char) (acc rest : List Char) :
    scanStr acc (escChar c ++ rest) = scanStr (c :: acc) rest := by
  by_cases h1 : c = '"'
  · subst h1; rfl
  · by_cases h2 : c = '\\'
    · subst h2; rfl
    · by_cases h3 : c.toNat < 32
      · have e1 := hexDigitVal_hexDigitChar (c.toNat / 16) (by omega)
        have e2 := hexDigitVal_hexDigitChar (c.toNat % 16) (by omega)
        have harith : ((0 * 16 + 0) * 16 + c.toNat / 16) * 16 + c.toNat % 16 = c.toNat := by
          omega
        simp only [escChar, if_neg h1, if_neg h2, if_pos h3, List.cons_append,
          List.nil_append, scanStr]
        rw [show hexDigitVal '0' = some 0 from rfl, e1, e2]
        simp only []
        rw [harith, Char.ofNat_toNat]
      · simp only [escChar, if_neg h1, if_neg h2, if_neg h3, List.cons_append,
          List.nil_append]
        rw [scanStr.eq_def]
        have h2' : c ≠ '\\' := h2
        simp [h1, h2']

theorem scanStr_escape_run (cs : List Char) : ∀ (acc rest : List Char),
    scanStr acc (cs.flatMap escChar ++ '"' :: rest)
      = some (String.mk (acc.reverse ++ cs), rest) := by
  induction cs with
  | nil => intro acc rest; simp [scanStr]
  | cons c t ih =>
    intro acc rest
    rw [List.flatMap_cons, List.append_assoc, scanStr_escChar, ih]
    simp

theorem scanStr_strChars (s : String) (rest : List Char) :
    scanStr [] (s.data.flatMap escChar ++ '"' :: rest) = some (s, rest) := by
  rw [scanStr_escape_run]
  simp

/-! ## Round-trip of the JSON codec: head-character facts -/

theorem digitChar_not_special (d : Nat) (h : d < 10) :
    wsChar (digitChar d) = false ∧ digitChar d ≠ ']' ∧ digitChar d ≠ '}' ∧
    digitChar d ≠ 'n' ∧ digitChar d ≠ 't' ∧ digitChar d ≠ 'f' ∧
    digitChar d ≠ '"' ∧ digitChar d ≠ '[' ∧ digitChar d ≠ '{' ∧ digitChar d ≠ '-' := by
  interval_cases d <;> decide

theorem scanWs_cons_not_ws {c : Char} (h : wsChar c = false) (t : List Char) :
    scanWs (c :: t) = c :: t := by
  simp [scanWs, h]

theorem serL_head (v : Jv) : ∃ c t, serL v = c :: t ∧ wsChar c = false ∧ c ≠ ']' ∧ c ≠ '}' := by
  cases v with
  | jnull => exact ⟨'n', _, rfl, by decide, by decide, by decide⟩
  | jbool b =>
    rcases b with _ | _
    · exact ⟨'f', _, rfl, by decide, by decide, by decide⟩
    · exact ⟨'t', _, rfl, by decide, by decide, by decide⟩
  | jstr s => exact ⟨'"', _, rfl, by decide, by decide, by decide⟩
  | jarr es => exact ⟨'[', _, rfl, by decide, by decide, by decide⟩
  | jobj ms => exact ⟨'{', _, rfl, by decide, by decide, by decide⟩
  | jnum n =>
    show ∃ c t, intChars n = c :: t ∧ _
    unfold intChars
    by_cases hn : n < 0
    · exact ⟨'-', natChars n.natAbs, by simp [hn], by decide, by decide, by decide⟩
    · obtain ⟨d, t, hd, ht⟩ := natChars_head n.natAbs
      obtain ⟨w1, w2, w3, _⟩ := digitChar_not_special d hd
      exact ⟨digitChar d, t, by simp [hn, ht], w1, w2, w3⟩

theorem scanWs_serL (v : Jv) (x : List Char) : scanWs (serL v ++ x) = serL v ++ x := by
  obtain ⟨c, t, hv, hws, _, _⟩ := serL_head v
  rw [hv, List.cons_append, scanWs_cons_not_ws hws]

/-! ## Round-trip of the JSON codec: the number branch -/

theorem pVal_num (f : Nat) (n : Int) (rest : List Char) (hr : noDigitHead rest = true) :
    pVal (f + 1) (intChars n ++ rest) = some (.jnum n, rest) := by
  obtain ⟨d, t, hd, ht⟩ := natChars_head n.natAbs
  obtain ⟨w1, _, _, w4, w5, w6, w7, w8, w9, w10⟩ := digitChar_not_special d hd
  have hdig : digChar (digitChar d) = true := (digitChar_spec d hd).1
  have hdv : digitsVal (digitChar d :: t) = n.natAbs := by
    rw [← ht]; exact digitsVal_natChars _
  have hsd : scanDigits (digitChar d :: (t ++ rest)) = (digitChar d :: t, rest) := by
    have h2 := scanDigits_run (natChars n.natAbs) rest (natChars_digits _) hr
    rwa [ht, List.cons_append] at h2
  unfold intChars
  by_cases hn : n < 0
  · simp only [if_pos hn, ht, List.cons_append]
    have hsw : scanWs ('-' :: (digitChar d :: (t ++ rest)))
        = '-' :: (digitChar d :: (t ++ rest)) := scanWs_cons_not_ws (by decide) _
    simp only [pVal, hsw, hsd]
    simp only [Option.some.injEq, Prod.mk.injEq, Jv.jnum.injEq, hdv]
    exact ⟨by omega, trivial⟩
  · simp only [if_neg hn, ht, List.cons_append]
    simp only [pVal, scanWs_cons_not_ws w1]
    split <;> simp_all

/-! ## Round-trip of the JSON codec: branch helpers -/

theorem pVal_null (f : Nat) (rest : List Char) :
    pVal (f + 1) (serL .jnull ++ rest) = some (.jnull, rest) := by
  show pVal (f + 1) ('n' :: 'u' :: 'l' :: 'l' :: rest) = some (.jnull, rest)
  simp [pVal, scanWs, wsChar]

theorem pVal_bool (f : Nat) (b : Bool) (rest : List Char) :
    pVal (f + 1) (serL (.jbool b) ++ rest) = some (.jbool b, rest) := by
  cases b with
  | true =>
    show pVal (f + 1) ('t' :: 'r' :: 'u' :: 'e' :: rest) = _
    simp [pVal, scanWs, wsChar]
  | false =>
    show pVal (f + 1) ('f' :: 'a' :: 'l' :: 's' :: 'e' :: rest) = _
    simp [pVal, scanWs, wsChar]

theorem pVal_str (f : Nat) (s : String) (rest : List Char) :
    pVal (f + 1) (strChars s ++ rest) = some (.jstr s, rest) := by
  have hsh : strChars s ++ rest = '"' :: (s.data.flatMap escChar ++ ('"' :: rest)) := by
    simp [strChars]
  rw [hsh]
  simp only [pVal, scanWs_cons_not_ws (by decide : wsChar '"' = false)]
  rw [scanStr_strChars]

theorem serItems_cons (e : Jv) (es : JItems) :
    ∃ x, serItems (.cons e es) = serL e ++ x := by
  cases es with
  | nil => exact ⟨[], by simp [serItems]⟩
  | cons e' es' => exact ⟨',' :: serItems (.cons e' es'), rfl⟩

theorem scanWs_serItems_cons (e : Jv) (es : JItems) (y : List Char) :
    scanWs (serItems (.cons e es) ++ y) = serItems (.cons e es) ++ y := by
  obtain ⟨x, hx⟩ := serItems_cons e es
  rw [hx, List.append_assoc, scanWs_serL, ← List.append_assoc]

theorem pVal_arr (f : Nat) (e : Jv) (es : JItems) (rest : List Char) :
    pVal (f + 1) ('[' :: (serItems (.cons e es) ++ ']' :: rest))
      = (match pItems f (serItems (.cons e es) ++ ']' :: rest) with
         | some (vs, r1) => some (.jarr vs, r1)
         | none => none) := by
  obtain ⟨x, hx⟩ := serItems_cons e es
  obtain ⟨c, t, hct, hws, hbr, _⟩ := serL_head e
  have hshape : serItems (.cons e es) ++ ']' :: rest = c :: (t ++ x ++ ']' :: rest) := by
    rw [hx, hct]
    simp [List.append_assoc]
  simp only [pVal, scanWs_cons_not_ws (by decide : wsChar '[' = false)]
  rw [show scanWs (serItems (.cons e es) ++ ']' :: rest)
      = serItems (.cons e es) ++ ']' :: rest from scanWs_serItems_cons e es _]
  rw [hshape]
  split <;> simp_all

theorem serFields_cons (k : String) (v : Jv) (ms : JFields) :
    ∃ x, serFields (.cons k v ms)
      = '"' :: (k.data.flatMap escChar ++ ('"' :: (':' :: (serL v ++ x)))) := by
  cases ms with
  | nil => exact ⟨[], by simp [serFields, strChars]⟩
  | cons k' v' ms' => exact ⟨',' :: serFields (.cons k' v' ms'), by simp [serFields, strChars]⟩

theorem pVal_obj (f : Nat) (k : String) (v : Jv) (ms : JFields) (rest : List Char) :
    pVal (f + 1) ('{' :: (serFields (.cons k v ms) ++ '}' :: rest))
      = (match pFields f (serFields (.cons k v ms) ++ '}' :: rest) with
         | some (fs, r1) => some (.jobj fs, r1)
         | none => none) := by
  obtain ⟨x, hx⟩ := serFields_cons k v ms
  simp only [pVal, scanWs_cons_not_ws (by decide : wsChar '{' = false)]
  rw [show scanWs (serFields (.cons k v ms) ++ '}' :: rest)
      = serFields (.cons k v ms) ++ '}' :: rest from by
    rw [hx, List.cons_append, scanWs_cons_not_ws (by decide : wsChar '"' = false)]]
  rw [hx]
  simp only [List.cons_append]
  split <;> simp_all

/-! ## Round-trip of the JSON codec: the main induction -/

mutual
theorem rtV : ∀ (v : Jv) (f : Nat) (rest : List Char),
    (serL v).length < f → noDigitHead rest = true →
    pVal f (serL v ++ rest) = some (v, rest)
  | .jnull, f, rest, hf, _ => by
    obtain ⟨f', rfl⟩ : ∃ f', f = f' + 1 := ⟨f - 1, by omega⟩
    exact pVal_null f' rest
  | .jbool b, f, rest, hf, _ => by
    obtain ⟨f', rfl⟩ : ∃ f', f = f' + 1 := ⟨f - 1, by omega⟩
    exact pVal_bool f' b rest
  | .jnum n, f, rest, hf, hr => by
    obtain ⟨f', rfl⟩ : ∃ f', f = f' + 1 := ⟨f - 1, by omega⟩
    exact pVal_num f' n rest hr
  | .jstr s, f, rest, hf, _ => by
    obtain ⟨f', rfl⟩ : ∃ f', f = f' + 1 := ⟨f - 1, by omega⟩
    exact pVal_str f' s rest
  | .jarr .nil, f, rest, hf, _ => by
    obtain ⟨f', rfl⟩ : ∃ f', f = f' + 1 := ⟨f - 1, by omega⟩
    show pVal (f' + 1) ('[' :: ']' :: rest) = some (.jarr .nil, rest)
    simp [pVal, scanWs, wsChar]
  | .jarr (.cons e es), f, rest, hf, _ => by
    obtain ⟨f', rfl⟩ : ∃ f', f = f' + 1 := ⟨f - 1, by omega⟩
    have hsl : serL (Jv.jarr (.cons e es)) = '[' :: (serItems (.cons e es) ++ [']']) := rfl
    have hlen : (serItems (.cons e es)).length + 1 < f' := by
      rw [hsl] at hf
      simp only [List.length_cons, List.length_append, List.length_singleton] at hf
      omega
    have key := rtItems e es f' rest hlen
    have harr : serL (.jarr (.cons e es)) ++ rest
        = '[' :: (serItems (.cons e es) ++ ']' :: rest) := by
      rw [hsl]
      simp [List.append_assoc]
    rw [harr, pVal_arr, key]
  | .jobj .nil, f, rest, hf, _ => by
    obtain ⟨f', rfl⟩ : ∃ f', f = f' + 1 := ⟨f - 1, by omega⟩
    show pVal (f' + 1) ('{' :: '}' :: rest) = some (.jobj .nil, rest)
    simp [pVal, scanWs, wsChar]
  | .jobj (.cons k v ms), f, rest, hf, _ => by
    obtain ⟨f', rfl⟩ : ∃ f', f = f' + 1 := ⟨f - 1, by omega⟩
    have hsl : serL (.jobj (.cons k v ms)) = '{' :: (serFields (.cons k v ms) ++ ['}']) := rfl
    have hlen : (serFields (.cons k v ms)).length + 1 < f' := by
      rw [hsl] at hf
      simp only [List.length_cons, List.length_append, List.length_singleton] at hf
      omega
    have key := rtFields k v ms f' rest hlen
    have hobj : serL (.jobj (.cons k v ms)) ++ rest
        = '{' :: (serFields (.cons k v ms) ++ '}' :: rest) := by
      rw [hsl]
      simp [List.append_assoc]
    rw [hobj, pVal_obj, key]
termination_by v _ _ _ _ => sizeOf v

theorem rtItems : ∀ (e : Jv) (es : JItems) (f : Nat) (rest : List Char),
    (serItems (.cons e es)).length + 1 < f →
    pItems f (serItems (.cons e es) ++ ']' :: rest) = some (.cons e es, rest)
  | e, .nil, f, rest, hf => by
    obtain ⟨f', rfl⟩ : ∃ f', f = f' + 1 := ⟨f - 1, by omega⟩
    have hse : serItems (.cons e .nil) = serL e := rfl
    rw [hse] at hf ⊢
    have hv := rtV e f' (']' :: rest) (by omega) rfl
    simp only [pItems, hv]
    rw [scanWs_cons_not_ws (by decide : wsChar ']' = false)]
    rfl
  | e, .cons e' es', f, rest, hf => by
    obtain ⟨f', rfl⟩ : ∃ f', f = f' + 1 := ⟨f - 1, by omega⟩
    have hse : serItems (.cons e (.cons e' es'))
        = serL e ++ ',' :: serItems (.cons e' es') := rfl
    rw [hse] at hf ⊢
    simp only [List.length_append, List.length_cons] at hf
    have hv := rtV e f' (',' :: (serItems (.cons e' es') ++ ']' :: rest))
      (by omega) rfl
    have key := rtItems e' es' f' rest (by omega)
    have hshape : (serL e ++ ',' :: serItems (.cons e' es')) ++ ']' :: rest
        = serL e ++ (',' :: (serItems (.cons e' es') ++ ']' :: rest)) := by
      simp [List.append_assoc]
    rw [hshape]
    simp only [pItems, hv]
    rw [show scanWs (',' :: (serItems (JItems.cons e' es') ++ ']' :: rest))
        = ',' :: (serItems (JItems.cons e' es') ++ ']' :: rest) from
      scanWs_cons_not_ws (by decide) _]
    simp only [key]
termination_by e es _ _ _ => sizeOf (JItems.cons e es)

theorem rtFields : ∀ (k : String) (v : Jv) (ms : JFields) (f : Nat) (rest : List Char),
    (serFields (.cons k v ms)).length + 1 < f →
    pFields f (serFields (.cons k v ms) ++ '}' :: rest) = some (.cons k v ms, rest)
  | k, v, .nil, f, rest, hf => by
    obtain ⟨f', rfl⟩ : ∃ f', f = f' + 1 := ⟨f - 1, by omega⟩
    have hse : serFields (.cons k v .nil) = strChars k ++ ':' :: serL v := rfl
    rw [hse] at hf
    simp only [strChars, List.length_append, List.length_cons] at hf
    have hv := rtV v f' ('}' :: rest) (by omega) rfl
    have hshape : serFields (.cons k v .nil) ++ '}' :: rest
        = '"' :: (k.data.flatMap escChar ++ ('"' :: (':' :: (serL v ++ '}' :: rest)))) := by
      rw [hse]
      simp [strChars, List.append_assoc]
    have w1 : scanWs (':' :: (serL v ++ '}' :: rest)) = ':' :: (serL v ++ '}' :: rest) :=
      scanWs_cons_not_ws (by decide) _
    have w2 : scanWs ('}' :: rest) = '}' :: rest := scanWs_cons_not_ws (by decide) _
    rw [hshape]
    simp only [pFields, scanWs_cons_not_ws (by decide : wsChar '"' = false)]
    simp [scanStr_strChars, w1, hv, w2]
  | k, v, .cons k' v' ms', f, rest, hf => by
    obtain ⟨f', rfl⟩ : ∃ f', f = f' + 1 := ⟨f - 1, by omega⟩
    have hse : serFields (.cons k v (.cons k' v' ms'))
        = strChars k ++ ':' :: serL v ++ ',' :: serFields (.cons k' v' ms') := rfl
    rw [hse] at hf
    simp only [strChars, List.length_append, List.length_cons] at hf
    have hv := rtV v f' (',' :: (serFields (.cons k' v' ms') ++ '}' :: rest))
      (by omega) rfl
    have key := rtFields k' v' ms' f' rest (by omega)
    have hshape : serFields (.cons k v (.cons k' v' ms')) ++ '}' :: rest
        = '"' :: (k.data.flatMap escChar ++ ('"' :: (':' :: (serL v
            ++ (',' :: (serFields (.cons k' v' ms') ++ '}' :: rest)))))) := by
      rw [hse]
      simp [strChars, List.append_assoc]
    have w1 : scanWs (',' :: (serFields (JFields.cons k' v' ms') ++ '}' :: rest))
        = ',' :: (serFields (JFields.cons k' v' ms') ++ '}' :: rest) :=
      scanWs_cons_not_ws (by decide) _
    have w0 : scanWs (':' :: (serL v ++ ',' :: (serFields (JFields.cons k' v' ms') ++ '}' :: rest)))
        = ':' :: (serL v ++ ',' :: (serFields (JFields.cons k' v' ms') ++ '}' :: rest)) :=
      scanWs_cons_not_ws (by decide) _
    rw [hshape]
    simp only [pFields, scanWs_cons_not_ws (by decide : wsChar '"' = false)]
    simp [scanStr_strChars, w0, hv, w1, key]
termination_by k v ms _ _ _ => sizeOf (JFields.cons k v ms)
end

/-- The codec round-trip: parsing a serialized value recovers it exactly. -/
theorem jparse_jserialize (v : Jv) : jparse (jserialize v) = some v := by
  have hv := rtV v ((serL v).length + 1) [] (by omega) (by decide)
  rw [List.append_nil] at hv
  show jparseL (String.mk (serL v)).data = some v
  have hd : (String.mk (serL v)).data = serL v := rfl
  rw [jparseL, hd, hv]
  simp [scanWs]

/-! ## Chunk-boundary invariance: how line splitting composes -/

/-- How `splitNl` composes across an append: the complete lines of the left
part stay complete; its partial tail joins the first line completed on the
right. -/
def nlComb (p q : List (List Char) × List Char) : List (List Char) × List Char :=
  match q.1 with
  | [] => (p.1, p.2 ++ q.2)
  | l :: ls => (p.1 ++ (p.2 ++ l) :: ls, q.2)

theorem splitNl_append (a b : List Char) :
    splitNl (a ++ b) = nlComb (splitNl a) (splitNl b) := by
  induction a with
  | nil =>
    rcases hb : splitNl b with ⟨lb, rb⟩
    cases lb <;> simp [splitNl, nlComb, hb]
  | cons c a' ih =>
    rcases ha : splitNl a' with ⟨la, ra⟩
    rcases hb : splitNl b with ⟨lb, rb⟩
    rw [ha, hb] at ih
    by_cases hc : c = '\n'
    · subst hc
      cases lb <;> simp [splitNl, nlComb, ih, ha, hb]
    · cases la <;> cases lb <;> simp [splitNl, nlComb, ih, ha, hb, hc]

theorem splitNl_no_nl {cs : List Char} (h : '\n' ∉ cs) : splitNl cs = ([], cs) := by
  induction cs with
  | nil => rfl
  | cons c t ih =>
    have hc : ¬(c = '\n') := fun e => h (e ▸ List.mem_cons_self c t)
    have ht := ih (fun m => h (List.mem_cons_of_mem c m))
    simp [splitNl, ht, hc]

theorem splitNl_snd_no_nl (cs : List Char) : '\n' ∉ (splitNl cs).2 := by
  induction cs with
  | nil => simp [splitNl]
  | cons c t ih =>
    rcases ht : splitNl t with ⟨lt, rt⟩
    rw [ht] at ih
    by_cases hc : c = '\n'
    · subst hc; simp [splitNl, ht, ih]
    · have hc' : ¬('\n' = c) := fun e => hc e.symm
      cases lt <;> simp_all [splitNl, ht]

theorem splitNl_rest (cs : List Char) : splitNl ((splitNl cs).2) = ([], (splitNl cs).2) :=
  splitNl_no_nl (splitNl_snd_no_nl cs)

/-! ## Chunk-boundary invariance: feeding composes -/

theorem feedChunk_append (fmt : LlmFormat) (st : StreamSt) (a b : String) :
    (feedChunk fmt st a).bind (fun st1 => feedChunk fmt st1 b)
      = feedChunk fmt st (a ++ b) := by
  rcases hpa : splitNl (st.accumulated_body ++ a.data) with ⟨la, ra⟩
  rcases hpb : splitNl b.data with ⟨lb, rb⟩
  have hab : splitNl (st.accumulated_body ++ (a.data ++ b.data))
      = nlComb (la, ra) (lb, rb) := by
    rw [← List.append_assoc, splitNl_append, hpa, hpb]
  have hra : splitNl (ra ++ b.data) = nlComb ([], ra) (lb, rb) := by
    have h0 : splitNl ra = ([], ra) := by
      have := splitNl_rest (st.accumulated_body ++ a.data)
      rwa [hpa] at this
    rw [splitNl_append, h0, hpb]
  cases lb with
  | nil =>
    simp only [nlComb] at hab hra
    cases hfold : la.foldlM (processLine fmt) st.dec with
    | error e => simp [feedChunk, hpa, hab, hra, hfold]
    | ok d => simp [feedChunk, hpa, hab, hra, hfold]
  | cons l ls =>
    simp only [nlComb] at hab hra
    simp only [List.nil_append] at hra
    cases hfold : la.foldlM (processLine fmt) st.dec with
    | error e =>
      simp [feedChunk, hpa, hab, hra, Except.bind, hfold, List.foldlM_append, pure, Except.pure]
    | ok d =>
      simp [feedChunk, hpa, hab, hra, Except.bind, hfold, List.foldlM_append, pure, Except.pure]

theorem foldlM_feedChunk_join (fmt : LlmFormat) : ∀ (chunks : List String) (st : StreamSt),
    '\n' ∉ st.accumulated_body →
    chunks.foldlM (feedChunk fmt) st = feedChunk fmt st (String.join chunks)
  | [], st, h => by
    have hsp : splitNl st.accumulated_body = ([], st.accumulated_body) := splitNl_no_nl h
    simp [String.join, feedChunk, hsp, List.foldlM]
  | c :: cs, st, h => by
    have hjoin : String.join (c :: cs) = c ++ String.join cs := by
      rcases c with ⟨cd⟩
      simp only [String.join_eq, List.map_cons, List.flatten_cons]
      rfl
    rw [hjoin, ← feedChunk_append]
    rw [List.foldlM_cons]
    cases hc : feedChunk fmt st c with
    | error e => simp [Except.bind, hc]
    | ok st1 =>
      have h1 : '\n' ∉ st1.accumulated_body := by
        rcases hsp : splitNl (st.accumulated_body ++ c.data) with ⟨ls, rest⟩
        have := splitNl_snd_no_nl (st.accumulated_body ++ c.data)
        rw [hsp] at this
        simp only [feedChunk, hsp] at hc
        cases hfold : (ls.foldlM (processLine fmt) st.dec) with
        | error e => rw [hfold] at hc; simp at hc
        | ok d =>
          rw [hfold] at hc
          simp at hc
          rw [← hc]
          exact this
      simp only [Except.bind, hc]
      exact foldlM_feedChunk_join fmt cs st1 h1

/-- The whole read loop equals one read of the concatenated body: the decoder
is invariant under how the body is split into chunks. -/
theorem runStream_join (fmt : LlmFormat) (chunks : List String) :
    runStream fmt chunks = feedChunk fmt initSt (String.join chunks) :=
  foldlM_feedChunk_join fmt chunks initSt (by simp [initSt])

/-! ## Malformed-frame resilience: inert lines -/

theorem processLine_data_shape (fmt : LlmFormat) (st : DecodeSt) (p : List Char)
    (hnr : ("data: ".data ++ p).getLast? ≠ some '\r') :
    processLine fmt st ("data: ".data ++ p)
      = (if p = "[DONE]".data then Except.ok st
         else
           match jparseL p with
           | some (.jobj obj) => processEvent fmt st obj
           | some _ => Except.ok st
           | none => Except.ok st) := by
  have hstrip : stripCr ("data: ".data ++ p) = "data: ".data ++ p := by
    unfold stripCr
    rw [if_neg hnr]
  show processLine fmt st ("data: ".data ++ p) = _
  rw [processLine, hstrip]
  rfl

theorem processLine_skip_bad (fmt : LlmFormat) (st : DecodeSt) (p : List Char)
    (hnr : ("data: ".data ++ p).getLast? ≠ some '\r')
    (hbad : jparseL p = none ∨ ∃ v, jparseL p = some v ∧ ¬ v.isObj) :
    processLine fmt st ("data: ".data ++ p) = .ok st := by
  rw [processLine_data_shape fmt st p hnr]
  by_cases hd : p = "[DONE]".data
  · simp [hd]
  · simp only [if_neg hd]
    rcases hbad with hnone | ⟨v, hv, hno⟩
    · rw [hnone]
    · rw [hv]
      cases v <;> simp_all [Jv.isObj]

theorem processLine_done (fmt : LlmFormat) (st : DecodeSt) :
    processLine fmt st ("data: [DONE]".data) = .ok st := rfl

/-! ## Block ordering: the completed anthropic blocks are tool-use blocks -/

/-- A canonical `tool_use` content block (an object whose `type` is
`tool_use`). -/
def isToolUseBlockJ (b : Jv) : Prop :=
  ∃ fs, b = Jv.jobj fs ∧ fs.get? "type" = some (.jstr "tool_use")

/-- The anthropic-side decoder invariant: every completed block is a
`tool_use` block, and the open accumulator (when present) is `tool_use`
typed. -/
def anthInv (st : DecodeSt) : Prop :=
  (∀ b ∈ st.anthropic_content, isToolUseBlockJ b)
  ∧ (st.current_anthropic_tool = .nil
      ∨ st.current_anthropic_tool.get? "type" = some (.jstr "tool_use"))

theorem JFields.get?_set_ne : ∀ (fs : JFields) (k' : String) (v : Jv) (k : String),
    k' ≠ k → (fs.set k' v).get? k = fs.get? k
  | .nil, k', v, k, h => by simp [JFields.set, JFields.get?, h]
  | .cons k0 v0 t, k', v, k, h => by
    by_cases h0 : k0 = k'
    · subst h0
      simp [JFields.set, JFields.get?, h]
    · simp [JFields.set, JFields.get?, h0, JFields.get?_set_ne t k' v k h]

theorem processEvent_anth_inv (st st' : DecodeSt) (obj : JFields)
    (hinv : anthInv st) (h : processEvent .anthropic st obj = .ok st') :
    anthInv st' := by
  obtain ⟨hcontent, hcur⟩ := hinv
  simp only [processEvent] at h
  by_cases hc : obj.containsKey "type"
  · rw [if_pos hc] at h
    cases hty : obj.atKey "type" with
    | error e => rw [hty] at h; simp at h
    | ok tyv =>
      rw [hty] at h
      simp only [exceptOkBind] at h
      cases htys : tyv.asStr with
      | error e => rw [htys] at h; simp at h
      | ok ty =>
        rw [htys] at h
        simp only [exceptOkBind] at h
        by_cases h1 : ty = "content_block_start"
        · rw [if_pos h1] at h
          cases hb : obj.atKey "content_block" with
          | error e => rw [hb] at h; simp at h
          | ok bv =>
            rw [hb] at h
            simp only [exceptOkBind] at h
            cases hbo : bv.asObj with
            | error e => rw [hbo] at h; simp at h
            | ok block =>
              rw [hbo] at h
              simp only [exceptOkBind] at h
              cases hbt : block.atKey "type" with
              | error e => rw [hbt] at h; simp at h
              | ok btv =>
                rw [hbt] at h
                simp only [exceptOkBind] at h
                cases hbts : btv.asStr with
                | error e => rw [hbts] at h; simp at h
                | ok bty =>
                  rw [hbts] at h
                  simp only [exceptOkBind] at h
                  by_cases h2 : bty = "tool_use"
                  · rw [if_pos h2] at h
                    cases hi : block.atKey "id" with
                    | error e => rw [hi] at h; simp at h
                    | ok iv =>
                      rw [hi] at h
                      simp only [exceptOkBind] at h
                      cases hn : block.atKey "name" with
                      | error e => rw [hn] at h; simp at h
                      | ok nv =>
                        rw [hn] at h
                        simp only [exceptOkBind, exceptPureEq, Except.ok.injEq] at h
                        subst h
                        exact ⟨hcontent, Or.inr rfl⟩
                  · rw [if_neg h2] at h
                    simp only [exceptPureEq, Except.ok.injEq] at h
                    subst h
                    exact ⟨hcontent, hcur⟩
        · rw [if_neg h1] at h
          by_cases h2 : ty = "content_block_delta"
          · rw [if_pos h2] at h
            cases hd : obj.atKey "delta" with
            | error e => rw [hd] at h; simp at h
            | ok dv =>
              rw [hd] at h
              simp only [exceptOkBind] at h
              cases hdo : dv.asObj with
              | error e => rw [hdo] at h; simp at h
              | ok delta =>
                rw [hdo] at h
                simp only [exceptOkBind] at h
                cases hdt : delta.atKey "type" with
                | error e => rw [hdt] at h; simp at h
                | ok dtv =>
                  rw [hdt] at h
                  simp only [exceptOkBind] at h
                  cases hdts : dtv.asStr with
                  | error e => rw [hdts] at h; simp at h
                  | ok dty =>
                    rw [hdts] at h
                    simp only [exceptOkBind] at h
                    by_cases h3 : dty = "text_delta"
                    · rw [if_pos h3] at h
                      cases ht : delta.atKey "text" with
                      | error e => rw [ht] at h; simp at h
                      | ok tv =>
                        rw [ht] at h
                        simp only [exceptOkBind] at h
                        cases hts : tv.asStr with
                        | error e => rw [hts] at h; simp at h
                        | ok t =>
                          rw [hts] at h
                          simp only [exceptOkBind, exceptPureEq, Except.ok.injEq] at h
                          subst h
                          exact ⟨hcontent, hcur⟩
                    · rw [if_neg h3] at h
                      by_cases h4 : dty = "input_json_delta"
                      · rw [if_pos h4] at h
                        cases hp : delta.atKey "partial_json" with
                        | error e => rw [hp] at h; simp at h
                        | ok pv =>
                          rw [hp] at h
                          simp only [exceptOkBind] at h
                          cases hps : pv.asStr with
                          | error e => rw [hps] at h; simp at h
                          | ok pj =>
                            rw [hps] at h
                            simp only [exceptOkBind, exceptPureEq, Except.ok.injEq] at h
                            subst h
                            exact ⟨hcontent, hcur⟩
                      · rw [if_neg h4] at h
                        simp only [exceptPureEq, Except.ok.injEq] at h
                        subst h
                        exact ⟨hcontent, hcur⟩
          · rw [if_neg h2] at h
            by_cases h3 : ty = "content_block_stop"
            · rw [if_pos h3] at h
              by_cases h4 : st.current_anthropic_tool ≠ JFields.nil
              · rw [if_pos h4] at h
                have hcur' : st.current_anthropic_tool.get? "type"
                    = some (.jstr "tool_use") := by
                  rcases hcur with hnil | hok
                  · exact absurd hnil h4
                  · exact hok
                by_cases h5 : st.current_tool_args ≠ ""
                · rw [if_pos h5] at h
                  cases hj : jparse st.current_tool_args with
                  | none => rw [hj] at h; simp at h
                  | some v =>
                    rw [hj] at h
                    simp only [exceptOkBind, exceptPureEq, Except.ok.injEq] at h
                    subst h
                    refine ⟨?_, Or.inl rfl⟩
                    intro b hb
                    rcases List.mem_append.mp hb with hb1 | hb2
                    · exact hcontent b hb1
                    · rw [List.mem_singleton] at hb2
                      subst hb2
                      refine ⟨_, rfl, ?_⟩
                      rw [JFields.get?_set_ne _ _ _ _ (by decide)]
                      exact hcur'
                · rw [if_neg h5] at h
                  simp only [exceptOkBind, exceptPureEq, Except.ok.injEq] at h
                  subst h
                  refine ⟨?_, Or.inl rfl⟩
                  intro b hb
                  rcases List.mem_append.mp hb with hb1 | hb2
                  · exact hcontent b hb1
                  · rw [List.mem_singleton] at hb2
                    subst hb2
                    exact ⟨_, rfl, hcur'⟩
              · rw [if_neg h4] at h
                simp only [exceptPureEq, Except.ok.injEq] at h
                subst h
                exact ⟨hcontent, hcur⟩
            · rw [if_neg h3] at h
              simp only [exceptPureEq, Except.ok.injEq] at h
              subst h
              exact ⟨hcontent, hcur⟩
  · rw [if_neg hc] at h
    simp only [exceptPureEq, Except.ok.injEq] at h
    subst h
    exact ⟨hcontent, hcur⟩

theorem processLine_anth_inv (st st' : DecodeSt) (line : List Char)
    (hinv : anthInv st) (h : processLine .anthropic st line = .ok st') :
    anthInv st' := by
  unfold processLine at h
  split at h
  · split at h
    · cases h; exact hinv
    · split at h
      · exact processEvent_anth_inv _ _ _ hinv h
      · cases h; exact hinv
      · cases h; exact hinv
  · cases h; exact hinv

theorem foldlM_except_inv {σ α : Type} (P : σ → Prop) (f : σ → α → Except String σ)
    (hf : ∀ s a s', P s → f s a = .ok s' → P s') :
    ∀ (l : List α) (s s' : σ), P s → l.foldlM f s = .ok s' → P s'
  | [], s, s', hs, h => by
    simp [List.foldlM] at h
    exact h ▸ hs
  | a :: l, s, s', hs, h => by
    rw [List.foldlM_cons] at h
    cases hfa : f s a with
    | error e => rw [hfa] at h; simp at h
    | ok s1 =>
      rw [hfa] at h
      simp only [exceptOkBind] at h
      exact foldlM_except_inv P f hf l s1 s' (hf s a s1 hs hfa) h

theorem feedChunk_anth_inv (st st' : StreamSt) (chunk : String)
    (hinv : anthInv st.dec) (h : feedChunk .anthropic st chunk = .ok st') :
    anthInv st'.dec := by
  unfold feedChunk at h
  rcases hsp : splitNl (st.accumulated_body ++ chunk.data) with ⟨lines, rest⟩
  rw [hsp] at h
  simp only [] at h
  cases hfold : lines.foldlM (processLine .anthropic) st.dec with
  | error e => rw [hfold] at h; simp at h
  | ok d =>
    rw [hfold] at h
    simp only [exceptOkBind, exceptPureEq, Except.ok.injEq] at h
    have hd : anthInv d :=
      foldlM_except_inv anthInv (processLine .anthropic)
        (fun s a s' hs hfa => processLine_anth_inv s s' a hs hfa) lines st.dec d hinv hfold
    rw [← h]
    exact hd

theorem runStream_anth_inv (chunks : List String) (st : StreamSt)
    (h : runStream .anthropic chunks = .ok st) : anthInv st.dec := by
  have hinit : anthInv initSt.dec := by
    constructor
    · intro b hb; simp [initSt, initDec] at hb
    · left; rfl
  exact foldlM_except_inv (fun s => anthInv s.dec) (feedChunk .anthropic)
    (fun s a s' hs hfa => feedChunk_anth_inv s s' a hs hfa) chunks initSt st hinit h

/-! ## Block ordering: the normalizer on a streamed OpenAI response -/

theorem normalizeToolCall_append (acc : List Jv) (tc : Jv) :
    normalizeToolCall acc tc = (normalizeToolCall [] tc).map (fun bs => acc ++ bs) := by
  cases tc with
  | jobj o =>
    simp only [normalizeToolCall, jvAsObjJobj, exceptOkBind]
    cases hty : o.atKey "type" with
    | error e => simp [hty]
    | ok tyv =>
      simp only [hty, exceptOkBind]
      cases htys : tyv.asStr with
      | error e => simp [htys]
      | ok ty =>
        simp only [htys, exceptOkBind]
        by_cases h1 : ty = "function"
        · simp only [if_pos h1]
          cases hf : o.atKey "function" with
          | error e => simp [hf]
          | ok fv =>
            simp only [hf, exceptOkBind]
            cases hfo : fv.asObj with
            | error e => simp [hfo]
            | ok func =>
              simp only [hfo, exceptOkBind]
              cases hi : o.atKey "id" with
              | error e => simp [hi]
              | ok iv =>
                simp only [hi, exceptOkBind]
                cases hn : func.atKey "name" with
                | error e => simp [hn]
                | ok nv =>
                  simp only [hn, exceptOkBind]
                  cases ha : func.atKey "arguments" with
                  | error e => simp [ha]
                  | ok av =>
                    simp only [ha, exceptOkBind]
                    cases has : av.asStr with
                    | error e => simp [has]
                    | ok argsStr =>
                      simp only [has, exceptOkBind]
                      cases hj : jparse argsStr with
                      | none => simp [hj]
                      | some v =>
                        simp only [hj]
                        cases hvo : v.asObj with
                        | error e => simp [hvo]
                        | ok inp => simp [hvo, Except.map]
        · simp [if_neg h1, Except.map]
  | jnull => simp [normalizeToolCall, Jv.asObj, Except.map]
  | jbool b => simp [normalizeToolCall, Jv.asObj, Except.map]
  | jnum n => simp [normalizeToolCall, Jv.asObj, Except.map]
  | jstr s => simp [normalizeToolCall, Jv.asObj, Except.map]
  | jarr a => simp [normalizeToolCall, Jv.asObj, Except.map]

theorem foldlM_normalizeToolCall_append : ∀ (tcs : List Jv) (acc : List Jv),
    tcs.foldlM normalizeToolCall acc
      = (tcs.foldlM normalizeToolCall []).map (fun bs => acc ++ bs)
  | [], acc => by simp [List.foldlM, Except.map]
  | tc :: tcs, acc => by
    rw [List.foldlM_cons, List.foldlM_cons]
    rw [normalizeToolCall_append acc tc]
    cases h0 : normalizeToolCall [] tc with
    | error e => simp [Except.map]
    | ok bs =>
      simp only [Except.map, exceptOkBind]
      rw [foldlM_normalizeToolCall_append tcs bs,
          foldlM_normalizeToolCall_append tcs (acc ++ bs)]
      cases h1 : tcs.foldlM normalizeToolCall [] with
      | error e => simp [Except.map]
      | ok bs2 => simp [Except.map, List.append_assoc]

theorem normalizeToolCall_blocks (tc : Jv) (bs : List Jv)
    (h : normalizeToolCall [] tc = .ok bs) : ∀ b ∈ bs, isToolUseBlockJ b := by
  cases tc with
  | jobj o =>
    simp only [normalizeToolCall, jvAsObjJobj, exceptOkBind] at h
    cases hty : o.atKey "type" with
    | error e => rw [hty] at h; simp at h
    | ok tyv =>
      rw [hty] at h
      simp only [exceptOkBind] at h
      cases htys : tyv.asStr with
      | error e => rw [htys] at h; simp at h
      | ok ty =>
        rw [htys] at h
        simp only [exceptOkBind] at h
        by_cases h1 : ty = "function"
        · rw [if_pos h1] at h
          cases hf : o.atKey "function" with
          | error e => rw [hf] at h; simp at h
          | ok fv =>
            rw [hf] at h
            simp only [exceptOkBind] at h
            cases hfo : fv.asObj with
            | error e => rw [hfo] at h; simp at h
            | ok func =>
              rw [hfo] at h
              simp only [exceptOkBind] at h
              cases hi : o.atKey "id" with
              | error e => rw [hi] at h; simp at h
              | ok iv =>
                rw [hi] at h
                simp only [exceptOkBind] at h
                cases hn : func.atKey "name" with
                | error e => rw [hn] at h; simp at h
                | ok nv =>
                  rw [hn] at h
                  simp only [exceptOkBind] at h
                  cases ha : func.atKey "arguments" with
                  | error e => rw [ha] at h; simp at h
                  | ok av =>
                    rw [ha] at h
                    simp only [exceptOkBind] at h
                    cases has : av.asStr with
                    | error e => rw [has] at h; simp at h
                    | ok argsStr =>
                      rw [has] at h
                      simp only [exceptOkBind] at h
                      cases hj : jparse argsStr with
                      | none => rw [hj] at h; simp at h
                      | some v =>
                        simp only [hj] at h
                        cases hvo : v.asObj with
                        | error e => rw [hvo] at h; simp at h
                        | ok inp =>
                          rw [hvo] at h
                          simp only [exceptOkBind, exceptPureEq,
                            Except.ok.injEq] at h
                          subst h
                          intro b hb
                          simp only [List.nil_append, List.mem_singleton] at hb
                          subst hb
                          exact ⟨_, rfl, rfl⟩
        · rw [if_neg h1] at h
          simp only [exceptPureEq, Except.ok.injEq] at h
          subst h
          intro b hb
          simp at hb
  | jnull => simp [normalizeToolCall, Jv.asObj] at h
  | jbool b => simp [normalizeToolCall, Jv.asObj] at h
  | jnum n => simp [normalizeToolCall, Jv.asObj] at h
  | jstr s => simp [normalizeToolCall, Jv.asObj] at h
  | jarr a => simp [normalizeToolCall, Jv.asObj] at h

theorem assembleResp_openai_fields (d : DecodeSt) :
    assembleResp .openai d
      = .jobj (.cons "choices" (.jarr (.cons (.jobj (.cons "message"
          (.jobj (JFields.ofList
            ([("role", Jv.jstr "assistant")]
              ++ (if d.final_text ≠ "" then [("content", Jv.jstr d.final_text)] else [])
              ++ (if d.openai_tool_calls ≠ [] then
                    [("tool_calls", Jv.jarr (JItems.ofList d.openai_tool_calls))]
                  else [])))) .nil)) .nil)) .nil) := by
  simp only [assembleResp, JFields.append]
  by_cases ht : d.final_text = "" <;> by_cases hc : d.openai_tool_calls = [] <;>
    simp [ht, hc, JFields.ofList, JFields.toList]

theorem normalize_assembled (d : DecodeSt) (fs : JFields)
    (hfs : assembleResp .openai d = .jobj fs) :
    normalizeOpenaiResp fs
      = (d.openai_tool_calls.foldlM normalizeToolCall []).map
          (fun tbs => Jv.jobj (.cons "content" (.jarr (JItems.ofList
            ((if d.final_text ≠ "" then [textBlock d.final_text] else [])
              ++ tbs))) .nil)) := by
  rw [assembleResp_openai_fields d] at hfs
  have hfs' : fs = .cons "choices" (.jarr (.cons (.jobj (.cons "message"
      (.jobj (JFields.ofList
        ([("role", Jv.jstr "assistant")]
          ++ (if d.final_text ≠ "" then [("content", Jv.jstr d.final_text)] else [])
          ++ (if d.openai_tool_calls ≠ [] then
                [("tool_calls", Jv.jarr (JItems.ofList d.openai_tool_calls))]
              else [])))) .nil)) .nil)) .nil := by
    cases hfs; rfl
  subst hfs'
  by_cases ht : d.final_text = "" <;> by_cases hc : d.openai_tool_calls = []
  · -- no text, no calls
    simp only [ht, hc]
    simp [normalizeOpenaiResp, JFields.get?, JFields.ofList, JFields.atKey, List.foldlM]
  · -- no text, calls present
    simp only [ht]
    rcases hcl : d.openai_tool_calls with _ | ⟨c0, cs⟩
    · exact absurd hcl hc
    · simp only [normalizeOpenaiResp, JFields.get?, JFields.ofList, ht, hc,
        List.append_nil, List.nil_append]
      simp [JFields.get?, JFields.ofList, jvAsObjJobj, JFields.atKey]
      cases h0 : normalizeToolCall [] c0 with
      | error e => simp [h0, Except.map]
      | ok x =>
        simp only [h0, exceptOkBind, Except.map]
        cases h1 : cs.foldlM normalizeToolCall x with
        | error e => simp [h1]
        | ok y => simp [h1]
  · -- text, no calls
    simp only [hc]
    simp [normalizeOpenaiResp, JFields.get?, JFields.ofList, JFields.atKey, ht,
      List.foldlM, textBlock]
  · -- text and calls
    rcases hcl : d.openai_tool_calls with _ | ⟨c0, cs⟩
    · exact absurd hcl hc
    · simp only [normalizeOpenaiResp, JFields.get?, JFields.ofList, ht, hc]
      simp [JFields.get?, JFields.ofList, jvAsObjJobj, JFields.atKey, ht]
      rw [normalizeToolCall_append [textBlock d.final_text] c0]
      cases h0 : normalizeToolCall [] c0 with
      | error e => simp [h0, Except.map]
      | ok x0 =>
        simp only [h0, Except.map, exceptOkBind]
        rw [foldlM_normalizeToolCall_append cs ([textBlock d.final_text] ++ x0),
            foldlM_normalizeToolCall_append cs x0]
        cases h1 : cs.foldlM normalizeToolCall [] with
        | error e => simp [Except.map]
        | ok y0 => simp [Except.map, List.append_assoc]

/-! ## The OpenAI payload builder on canonical (typed) conversations -/

theorem toolResultFold_enc (b : ContentBlock) (acc : List Jv) :
    toolResultFold acc (encodeBlock b) = .ok (acc ++ (toolResultMsg? b).toList) := by
  cases b <;>
    simp [toolResultFold, encodeBlock, JFields.atKey, JFields.get?, JFields.ofList,
      toolResultMsg?, Option.toList]

theorem toolResultFold_list : ∀ (bs : List ContentBlock) (acc : List Jv),
    (bs.map encodeBlock).foldlM toolResultFold acc
      = .ok (acc ++ bs.filterMap toolResultMsg?)
  | [], acc => by simp [List.foldlM]
  | b :: bs, acc => by
    rw [List.map_cons, List.foldlM_cons, toolResultFold_enc]
    simp only [exceptOkBind]
    rw [toolResultFold_list bs (acc ++ (toolResultMsg? b).toList)]
    cases b <;> simp [toolResultMsg?, Option.toList]

theorem translateBlockFold_enc (b : ContentBlock) (acc : String × List Jv) :
    translateBlockFold acc (encodeBlock b)
      = .ok (acc.1 ++ specTextOf b, acc.2 ++ (specToolCallOf b).toList) := by
  cases b <;>
    simp [translateBlockFold, encodeBlock, JFields.atKey, JFields.get?, JFields.ofList,
      specTextOf, specToolCallOf, Option.toList, String.append_empty]

/-- The concatenation of the text of all `Text` blocks, as the spec words it. -/
def specConcatText (bs : List ContentBlock) : String :=
  (bs.map specTextOf).foldl (fun a b => a ++ b) ""

theorem foldl_string_append : ∀ (l : List String) (s : String),
    l.foldl (fun a b => a ++ b) s = s ++ l.foldl (fun a b => a ++ b) ""
  | [], s => by simp [String.append_empty]
  | x :: l, s => by
    rw [List.foldl_cons, List.foldl_cons, foldl_string_append l (s ++ x),
        foldl_string_append l ("" ++ x)]
    simp [String.empty_append, String.append_assoc]

theorem specConcatText_cons (b : ContentBlock) (bs : List ContentBlock) :
    specConcatText (b :: bs) = specTextOf b ++ specConcatText bs := by
  unfold specConcatText
  rw [List.map_cons, List.foldl_cons, foldl_string_append]
  simp [String.empty_append]

theorem translateBlockFold_list : ∀ (bs : List ContentBlock) (acc : String × List Jv),
    (bs.map encodeBlock).foldlM translateBlockFold acc
      = .ok (acc.1 ++ specConcatText bs, acc.2 ++ bs.filterMap specToolCallOf)
  | [], acc => by simp [List.foldlM, specConcatText, String.append_empty]
  | b :: bs, acc => by
    rw [List.map_cons, List.foldlM_cons, translateBlockFold_enc]
    simp only [exceptOkBind]
    rw [translateBlockFold_list bs _]
    rw [specConcatText_cons]
    cases b <;>
      simp [specTextOf, specToolCallOf, Option.toList, String.append_assoc,
        String.append_empty, String.empty_append, List.append_assoc]

theorem assistantMsgFields_spec (t : String) (calls : List Jv) :
    Jv.jobj (assistantMsgFields t calls) = specAsstMsg t calls := by
  by_cases ht : t = "" <;> by_cases hc : calls = [] <;>
    simp [assistantMsgFields, specAsstMsg, JFields.append, JFields.ofList,
      JFields.toList, ht, hc]

theorem translateOneMsg_enc (m : ChatMsg) (msgs : List Jv) :
    translateOneMsg msgs (encodeMsg m) = .ok (msgs ++ specTranslateMsg m) := by
  rcases m with ⟨role, content⟩
  cases role with
  | user =>
    cases content with
    | str s =>
      simp [translateOneMsg, encodeMsg, JFields.atKey, JFields.get?, JFields.ofList,
        specTranslateMsg]
    | blocks bs =>
      have h := toolResultFold_list bs msgs
      simp only [specTranslateMsg]
      simp [translateOneMsg, encodeMsg, JFields.atKey, JFields.get?, JFields.ofList, h]
  | assistant =>
    cases content with
    | str s =>
      simp [translateOneMsg, encodeMsg, JFields.atKey, JFields.get?, JFields.ofList,
        specTranslateMsg]
    | blocks bs =>
      have h := translateBlockFold_list bs ("", [])
      simp only [specTranslateMsg]
      simp [translateOneMsg, encodeMsg, JFields.atKey, JFields.get?, JFields.ofList, h,
        assistantMsgFields_spec, String.empty_append, List.nil_append]
      rfl

theorem buildOpenaiMsgs_fold : ∀ (convo : List ChatMsg) (msgs : List Jv),
    (convo.map encodeMsg).foldlM translateOneMsg msgs
      = .ok (msgs ++ convo.flatMap specTranslateMsg)
  | [], msgs => by simp [List.foldlM]
  | m :: convo, msgs => by
    rw [List.map_cons, List.foldlM_cons, translateOneMsg_enc]
    simp only [exceptOkBind]
    rw [buildOpenaiMsgs_fold convo (msgs ++ specTranslateMsg m)]
    simp [List.append_assoc]

/-- The builder on a typed canonical conversation: the synthetic system
message first, then the spec-described translation of each message in
order. -/
theorem buildOpenaiMsgs_spec (sys : String) (convo : List ChatMsg) :
    buildOpenaiMsgs sys (convo.map encodeMsg)
      = .ok (systemMsgJv sys :: convo.flatMap specTranslateMsg) := by
  unfold buildOpenaiMsgs
  rw [buildOpenaiMsgs_fold]
  simp

/-! ## The round-trip property via builder and normalizer -/

theorem roundTripAssistant_eq (sys : String) (bs : List ContentBlock) :
    roundTripAssistant sys bs
      = normalizeOpenaiResp (syntheticOpenaiResp
          (specAsstMsg (specConcatText bs) (bs.filterMap specToolCallOf))) := by
  unfold roundTripAssistant
  have h := buildOpenaiMsgs_spec sys [⟨.assistant, .blocks bs⟩]
  simp only [List.map_cons, List.map_nil, List.flatMap_cons, List.flatMap_nil,
    specTranslateMsg, List.append_nil] at h
  rw [h]
  simp only [exceptOkBind]
  rfl

theorem syntheticOpenai_as_assembled (t : String) (calls : List Jv) :
    Jv.jobj (syntheticOpenaiResp (specAsstMsg t calls))
      = assembleResp .openai
          { final_text := t, anthropic_content := [], openai_tool_calls := calls,
            current_anthropic_tool := .nil, current_openai_tool := .nil,
            current_tool_args := "", emitted := [] } := by
  rw [assembleResp_openai_fields]
  by_cases ht : t = "" <;> by_cases hc : calls = [] <;>
    simp [syntheticOpenaiResp, specAsstMsg, JFields.ofList, ht, hc]

theorem normalize_synthetic (t : String) (calls : List Jv) :
    normalizeOpenaiResp (syntheticOpenaiResp (specAsstMsg t calls))
      = (calls.foldlM normalizeToolCall []).map
          (fun tbs => Jv.jobj (.cons "content" (.jarr (JItems.ofList
            ((if t ≠ "" then [textBlock t] else []) ++ tbs))) .nil)) := by
  have h := normalize_assembled
    { final_text := t, anthropic_content := [], openai_tool_calls := calls,
      current_anthropic_tool := .nil, current_openai_tool := .nil,
      current_tool_args := "", emitted := [] }
    (syntheticOpenaiResp (specAsstMsg t calls))
    (syntheticOpenai_as_assembled t calls).symm
  exact h

theorem normalizeToolCall_spec_call (acc : List Jv) (i nm : String) (o : JFields) :
    normalizeToolCall acc (Jv.jobj (JFields.ofList
      [("id", .jstr i), ("type", .jstr "function"),
       ("function", .jobj (JFields.ofList
         [("name", .jstr nm), ("arguments", .jstr (jserialize (.jobj o)))]))]))
      = .ok (acc ++ [encodeBlock (.toolUse i nm (.jobj o))]) := by
  simp [normalizeToolCall, JFields.atKey, JFields.get?, JFields.ofList,
    jparse_jserialize, encodeBlock]

theorem foldlM_normalize_spec_calls : ∀ (tus : List ContentBlock) (acc : List Jv),
    (∀ b ∈ tus, ∃ i nm o, b = .toolUse i nm (.jobj o)) →
    (tus.filterMap specToolCallOf).foldlM normalizeToolCall acc
      = .ok (acc ++ tus.map encodeBlock)
  | [], acc, _ => by simp [List.foldlM]
  | b :: tus, acc, h => by
    obtain ⟨i, nm, o, rfl⟩ := h b (List.mem_cons_self b tus)
    rw [List.filterMap_cons]
    simp only [specToolCallOf]
    rw [List.foldlM_cons, normalizeToolCall_spec_call]
    simp only [exceptOkBind]
    rw [foldlM_normalize_spec_calls tus (acc ++ [encodeBlock (.toolUse i nm (.jobj o))])
      (fun b hb => h b (List.mem_cons_of_mem _ hb))]
    simp [List.append_assoc]

theorem specConcatText_tools : ∀ (tus : List ContentBlock),
    (∀ b ∈ tus, ∃ i nm o, b = .toolUse i nm (.jobj o)) → specConcatText tus = ""
  | [], _ => rfl
  | b :: tus, h => by
    obtain ⟨i, nm, o, rfl⟩ := h b (List.mem_cons_self b tus)
    rw [specConcatText_cons,
      specConcatText_tools tus (fun b hb => h b (List.mem_cons_of_mem _ hb))]
    rfl

theorem foldlM_normalizeToolCall_blocks : ∀ (tcs : List Jv) (tbs : List Jv),
    tcs.foldlM normalizeToolCall [] = .ok tbs → ∀ b ∈ tbs, isToolUseBlockJ b
  | [], tbs, h => by
    simp [List.foldlM] at h
    subst h
    intro b hb
    simp at hb
  | tc :: tcs, tbs, h => by
    rw [List.foldlM_cons] at h
    cases h0 : normalizeToolCall [] tc with
    | error e => rw [h0] at h; simp at h
    | ok bs0 =>
      rw [h0] at h
      simp only [exceptOkBind] at h
      rw [foldlM_normalizeToolCall_append] at h
      cases h1 : tcs.foldlM normalizeToolCall [] with
      | error e => rw [h1] at h; simp at h
      | ok tbs0 =>
        rw [h1] at h
        simp only [exceptMapOk', Except.ok.injEq] at h
        subst h
        intro b hb
        rcases List.mem_append.mp hb with hb0 | hb1
        · exact normalizeToolCall_blocks tc bs0 h0 b hb0
        · exact foldlM_normalizeToolCall_blocks tcs tbs0 h1 b hb1

/-! ## Line-splitting facts for whole-line insertion -/

theorem splitNl_cons_ne_nilnil (c : Char) (cs : List Char) : splitNl (c :: cs) ≠ ([], []) := by
  rcases hs : splitNl cs with ⟨ls, rest⟩
  by_cases hc : c = '\n'
  · subst hc; simp [splitNl, hs]
  · cases ls <;> simp [splitNl, hs, hc]

theorem splitNl_cons (c : Char) (cs : List Char) :
    splitNl (c :: cs)
      = (if c = '\n' then ([] :: (splitNl cs).1, (splitNl cs).2)
         else
           match (splitNl cs).1 with
           | [] => ([], c :: (splitNl cs).2)
           | l :: ls1 => ((c :: l) :: ls1, (splitNl cs).2)) := by
  rcases h : splitNl cs with ⟨ls, rest⟩
  simp only [splitNl, h]

theorem splitNl_last_nl : ∀ (cs : List Char), cs.getLast? = some '\n' → (splitNl cs).2 = []
  | [], h => by simp at h
  | [c], h => by
    simp [List.getLast?] at h
    subst h
    rfl
  | c :: c2 :: cs, h => by
    rw [List.getLast?_cons_cons] at h
    have ih := splitNl_last_nl (c2 :: cs) h
    rcases hs : splitNl (c2 :: cs) with ⟨ls, rest⟩
    rw [hs] at ih
    simp only at ih
    subst ih
    have hne : ls ≠ [] := by
      intro he
      subst he
      exact splitNl_cons_ne_nilnil c2 cs hs
    rw [splitNl_cons c (c2 :: cs), hs]
    by_cases hc : c = '\n'
    · simp [hc]
    · rcases ls with _ | ⟨l, ls1⟩
      · exact absurd rfl hne
      · simp [hc]

theorem runStream_single (fmt : LlmFormat) (x : String) :
    runStream fmt [x] = feedChunk fmt initSt x := by
  unfold runStream
  rw [List.foldlM_cons]
  cases h : feedChunk fmt initSt x with
  | error e => simp [h, List.foldlM]
  | ok st => simp [h, List.foldlM]

theorem runStream_remove_inert_line (fmt : LlmFormat) (pre post : String)
    (dl : List Char)
    (hpre : pre = "" ∨ pre.data.getLast? = some '\n')
    (hnl : '\n' ∉ dl)
    (hinert : ∀ s : DecodeSt, processLine fmt s dl = .ok s) :
    runStream fmt [pre ++ String.mk (dl ++ ['\n']) ++ post] = runStream fmt [pre ++ post] := by
  rw [runStream_single, runStream_single]
  have hdata : (pre ++ String.mk (dl ++ ['\n']) ++ post).data
      = pre.data ++ ((dl ++ ['\n']) ++ post.data) := by
    simp [String.data_append, List.append_assoc]
  have hdata2 : (pre ++ post).data = pre.data ++ post.data := by
    simp [String.data_append]
  rcases hppost : splitNl post.data with ⟨lpost, rpost⟩
  have hpre2 : (splitNl pre.data).2 = [] := by
    rcases hpre with h0 | h0
    · rw [h0]; rfl
    · exact splitNl_last_nl pre.data h0
  rcases hppre : splitNl pre.data with ⟨lpre, rpre⟩
  rw [hppre] at hpre2
  simp only at hpre2
  subst hpre2
  have hdl : splitNl (dl ++ ['\n']) = ([dl], []) := by
    rw [splitNl_append, splitNl_no_nl hnl]
    simp [splitNl, nlComb]
  have hsplit1 : splitNl (pre.data ++ ((dl ++ ['\n']) ++ post.data))
      = (lpre ++ dl :: lpost.modifyHead id, rpost) := by
    rw [splitNl_append, splitNl_append, hdl, hppre, hppost]
    cases lpost <;> simp [nlComb]
  have hsplit2 : splitNl (pre.data ++ post.data)
      = (lpre ++ lpost.modifyHead id, rpost) := by
    rw [splitNl_append, hppre, hppost]
    cases lpost <;> simp [nlComb]
  unfold feedChunk
  rw [show initSt.accumulated_body = [] from rfl]
  simp only [List.nil_append]
  rw [hdata, hdata2, hsplit1, hsplit2]
  simp only []
  rw [List.foldlM_append, List.foldlM_append]
  cases hf : lpre.foldlM (processLine fmt) initSt.dec with
  | error e => simp
  | ok d0 =>
    simp only [exceptOkBind]
    rw [List.foldlM_cons, hinert d0]
    simp only [exceptOkBind]

/-! ## Event shapes used by the claims -/

/-- An Anthropic `content_block_start` event opening a `tool_use` block. -/
def anthStartEvt (i nm : Jv) : JFields :=
  JFields.ofList
    [("type", .jstr "content_block_start"),
     ("content_block", .jobj (JFields.ofList
       [("type", .jstr "tool_use"), ("id", i), ("name", nm)]))]

/-- An Anthropic `input_json_delta` event carrying one argument fragment. -/
def anthArgsEvt (f : String) : JFields :=
  JFields.ofList
    [("type", .jstr "content_block_delta"),
     ("delta", .jobj (JFields.ofList
       [("type", .jstr "input_json_delta"), ("partial_json", .jstr f)]))]

/-- An Anthropic `content_block_stop` event. -/
def anthStopEvt : JFields :=
  JFields.ofList [("type", .jstr "content_block_stop")]

/-- The tool accumulator the decoder opens at `content_block_start`
(`llm_client.cpp:213-216`): `input` starts as the empty object. -/
def mkAnthTool (i nm : Jv) : JFields :=
  JFields.ofList
    [("type", .jstr "tool_use"), ("id", i), ("name", nm), ("input", .jobj .nil)]

/-- An OpenAI-style tool-call accumulator with the given arguments string
(`llm_client.cpp:263-269`; a fresh one has empty arguments). -/
def mkOpenTool (i nm : Jv) (args : String) : JFields :=
  JFields.ofList
    [("id", i), ("type", .jstr "function"),
     ("function", .jobj (JFields.ofList [("name", nm), ("arguments", .jstr args)]))]

/-- The spec's incremental-reconstruction example stream (section 8): a
`tool_use` block whose arguments arrive as the fragments of
`\x7b"cmd":"ls"\x7d` split after the `l`. -/
def c6ExampleChunks : List String :=
  ["data: \x7b\"type\":\"content_block_start\",\"content_block\":\x7b\"type\":\"tool_use\",\"id\":\"t1\",\"name\":\"bash\"\x7d\x7d\n",
   "data: \x7b\"type\":\"content_block_delta\",\"delta\":\x7b\"type\":\"input_json_delta\",\"partial_json\":\"\x7b\\\"cmd\\\":\\\"l\"\x7d\x7d\n",
   "data: \x7b\"type\":\"content_block_delta\",\"delta\":\x7b\"type\":\"input_json_delta\",\"partial_json\":\"s\\\"\x7d\"\x7d\x7d\n",
   "data: \x7b\"type\":\"content_block_stop\"\x7d\n"]

/-- C6: in AnthropicStyle streaming, `input_json_delta` fragments are
appended in order to the open accumulator's argument buffer; at
`content_block_stop` with an open accumulator, an empty buffer yields the
empty-object `input`, a non-empty buffer is parsed as JSON to become the
`input`, the finalized block is appended to the completed list and the
accumulator is cleared; and the fragments of the spec's example reconstruct
to the parsed value of the split `cmd`/`ls` object. -/
theorem c6_incremental_args :
    (∀ (st : DecodeSt) (f : String), st.current_anthropic_tool ≠ .nil →
      processEvent .anthropic st (anthArgsEvt f)
        = .ok { st with current_tool_args := st.current_tool_args ++ f })
    ∧ (∀ (st : DecodeSt) (i nm : Jv), st.current_anthropic_tool = mkAnthTool i nm →
        st.current_tool_args = "" →
        processEvent .anthropic st anthStopEvt
          = .ok { st with
              anthropic_content := st.anthropic_content ++ [.jobj (mkAnthTool i nm)],
              current_anthropic_tool := .nil })
    ∧ (∀ (st : DecodeSt) (a : String) (v : Jv), st.current_anthropic_tool ≠ .nil →
        st.current_tool_args = a → a ≠ "" → jparse a = some v →
        processEvent .anthropic st anthStopEvt
          = .ok { st with
              anthropic_content := st.anthropic_content
                ++ [.jobj (st.current_anthropic_tool.set "input" v)],
              current_anthropic_tool := .nil })
    ∧ (decodeStream .anthropic c6ExampleChunks
        = .ok (.jobj (.cons "content" (.jarr (.cons (.jobj (JFields.ofList
            [("type", .jstr "tool_use"), ("id", .jstr "t1"), ("name", .jstr "bash"),
             ("input", .jobj (.cons "cmd" (.jstr "ls") .nil))])) .nil)) .nil), [])) := by
  refine ⟨?_, ?_, ?_, ?_⟩
  · intro st f _
    simp [processEvent, anthArgsEvt, JFields.atKey, JFields.get?, JFields.ofList,
      JFields.containsKey]
  · intro st i nm hcur hargs
    simp [processEvent, anthStopEvt, JFields.atKey, JFields.get?, JFields.ofList,
      JFields.containsKey, hcur, hargs, mkAnthTool]
  · intro st a v hcur hargs ha hj
    subst hargs
    simp [processEvent, anthStopEvt, JFields.atKey, JFields.get?, JFields.ofList,
      JFields.containsKey, hcur, ha, hj]
  · rfl

/-- C7: in OpenAIStyle streaming, a tool-call delta carrying an `id` first
flushes the open accumulator (finalizing its accumulated arguments and
appending the call to the completed list) and then opens a fresh
accumulator with that `id` and `function.name`; a delta carrying
`function.arguments` appends that fragment to the argument buffer; and at
end of stream a still-open accumulator is flushed unconditionally. -/
theorem c7_openai_accumulation :
    (∀ (st : DecodeSt) (i nm : Jv), st.current_openai_tool = .nil →
      processToolCallDelta st (.jobj (JFields.ofList
        [("id", i), ("function", .jobj (JFields.ofList [("name", nm)]))]))
        = .ok { st with current_openai_tool := mkOpenTool i nm "", current_tool_args := "" })
    ∧ (∀ (st : DecodeSt) (i nm i0 nm0 : Jv) (a0 : String),
        st.current_openai_tool = mkOpenTool i0 nm0 a0 →
        processToolCallDelta st (.jobj (JFields.ofList
          [("id", i), ("function", .jobj (JFields.ofList [("name", nm)]))]))
          = .ok { st with
              openai_tool_calls := st.openai_tool_calls
                ++ [.jobj (mkOpenTool i0 nm0 st.current_tool_args)],
              current_openai_tool := mkOpenTool i nm "",
              current_tool_args := "" })
    ∧ (∀ (st : DecodeSt) (f : String),
        processToolCallDelta st (.jobj (JFields.ofList
          [("function", .jobj (JFields.ofList [("arguments", .jstr f)]))]))
          = .ok { st with current_tool_args := st.current_tool_args ++ f })
    ∧ (∀ (st : DecodeSt) (i nm : Jv) (f : String), st.current_openai_tool = .nil →
        processToolCallDelta st (.jobj (JFields.ofList
          [("id", i), ("function", .jobj (JFields.ofList
            [("name", nm), ("arguments", .jstr f)]))]))
          = .ok { st with current_openai_tool := mkOpenTool i nm "", current_tool_args := "" ++ f })
    ∧ (∀ (st : DecodeSt) (i0 nm0 : Jv) (a0 : String),
        st.current_openai_tool = mkOpenTool i0 nm0 a0 →
        flushOpenaiTool st = .ok { st with
          openai_tool_calls := st.openai_tool_calls
            ++ [.jobj (mkOpenTool i0 nm0 st.current_tool_args)],
          current_openai_tool := mkOpenTool i0 nm0 st.current_tool_args }) := by
  refine ⟨?_, ?_, ?_, ?_, ?_⟩
  · intro st i nm hcur
    simp [processToolCallDelta, JFields.atKey, JFields.get?, JFields.ofList,
      JFields.containsKey, hcur, mkOpenTool]
  · intro st i nm i0 nm0 a0 hcur
    simp [processToolCallDelta, JFields.atKey, JFields.get?, JFields.ofList,
      JFields.containsKey, hcur, mkOpenTool, JFields.set]
  · intro st f
    simp [processToolCallDelta, JFields.atKey, JFields.get?, JFields.ofList,
      JFields.containsKey]
  · intro st i nm f hcur
    simp [processToolCallDelta, JFields.atKey, JFields.get?, JFields.ofList,
      JFields.containsKey, hcur, mkOpenTool]
  · intro st i0 nm0 a0 hcur
    simp [flushOpenaiTool, JFields.atKey, JFields.get?, JFields.ofList,
      JFields.containsKey, hcur, mkOpenTool, JFields.set]

/-- A stream whose accumulated tool-argument buffer is not valid JSON at
`content_block_stop`. -/
def c10BadChunks : List String :=
  ["data: \x7b\"type\":\"content_block_start\",\"content_block\":\x7b\"type\":\"tool_use\",\"id\":\"t1\",\"name\":\"bash\"\x7d\x7d\n",
   "data: \x7b\"type\":\"content_block_delta\",\"delta\":\x7b\"type\":\"input_json_delta\",\"partial_json\":\"\x7bbad\"\x7d\x7d\n",
   "data: \x7b\"type\":\"content_block_stop\"\x7d\n"]

/-- C10: in AnthropicStyle streaming, a `content_block_stop` whose open
accumulator holds a non-empty argument buffer that is not valid JSON throws
(the throwing `boost::json::parse` overload), so the whole response fails:
the decode yields an error, the top-level handler wraps it, and
`send_request` returns an error value instead of content blocks; the
frame-level skip does not extend to the accumulated buffer. -/
theorem c10_malformed_args_abort :
    (∀ (st : DecodeSt) (a : String), st.current_anthropic_tool ≠ .nil →
      st.current_tool_args = a → a ≠ "" → jparse a = none →
      processEvent .anthropic st anthStopEvt = .error "json parse error")
    ∧ (∀ (fmt : LlmFormat) (sb : String) (chunks : List String) (e : String),
        decodeStream fmt chunks = .error e →
        sendStreaming fmt 200 sb chunks = .error (caughtErrStr e))
    ∧ (decodeStream .anthropic c10BadChunks = .error "json parse error")
    ∧ (sendStreaming .anthropic 200 "" c10BadChunks
        = .error (caughtErrStr "json parse error")) := by
  refine ⟨?_, ?_, ?_, ?_⟩
  · intro st a hcur hargs ha hj
    subst hargs
    simp [processEvent, anthStopEvt, JFields.atKey, JFields.get?, JFields.ofList,
      JFields.containsKey, hcur, ha, hj]
  · intro fmt sb chunks e h
    simp [sendStreaming, h]
  · rfl
  · rfl

/-! ## C3: chunk-boundary invariance -/

/-- C3: the decoder's result depends only on the concatenation of the
network chunks, never on where the chunk boundaries fall: two chunk lists
with the same concatenation give the same loop state and the same decoded
response and emitted text. -/
theorem c3_chunk_boundary_invariance (fmt : LlmFormat) (chunks1 chunks2 : List String)
    (h : String.join chunks1 = String.join chunks2) :
    runStream fmt chunks1 = runStream fmt chunks2
    ∧ decodeStream fmt chunks1 = decodeStream fmt chunks2 := by
  have hr : runStream fmt chunks1 = runStream fmt chunks2 := by
    rw [runStream_join, runStream_join, h]
  refine ⟨hr, ?_⟩
  unfold decodeStream
  rw [hr]

/-- A one-chunk SSE stream carrying one text delta. -/
def c3Whole : List String :=
  ["data: \x7b\"type\":\"content_block_delta\",\"delta\":\x7b\"type\":\"text_delta\",\"text\":\"Hi\"\x7d\x7d\n"]

/-- The same bytes split in the middle of the JSON frame. -/
def c3Split : List String :=
  ["data: \x7b\"ty",
   "pe\":\"content_block_delta\",\"delta\":\x7b\"type\":\"text_delta\",\"text\":\"Hi\"\x7d\x7d\n"]

theorem c3_chunk_boundary_invariance_witness :
    String.join c3Whole = String.join c3Split
    ∧ (runStream .anthropic c3Whole = runStream .anthropic c3Split
       ∧ decodeStream .anthropic c3Whole = decodeStream .anthropic c3Split) :=
  ⟨rfl, c3_chunk_boundary_invariance .anthropic c3Whole c3Split rfl⟩

/-! ## C5: malformed-frame resilience -/

/-- C5: a `data: ` frame whose payload fails to parse as JSON, or parses to
a non-object, is skipped leaving the decoder state unchanged; the
`[DONE]` sentinel is likewise a no-op; consequently deleting such an inert
line from the stream (at a line boundary) does not change the decode at
all. -/
theorem c5_malformed_frame_resilience :
    (∀ (fmt : LlmFormat) (st : DecodeSt) (p : List Char),
      ("data: ".data ++ p).getLast? ≠ some '\r' →
      (jparseL p = none ∨ ∃ v, jparseL p = some v ∧ ¬ v.isObj) →
      processLine fmt st ("data: ".data ++ p) = .ok st)
    ∧ (∀ (fmt : LlmFormat) (st : DecodeSt),
        processLine fmt st ("data: [DONE]".data) = .ok st)
    ∧ (∀ (fmt : LlmFormat) (pre post p : String),
        (pre = "" ∨ pre.data.getLast? = some '\n') →
        '\n' ∉ p.data →
        ("data: ".data ++ p.data).getLast? ≠ some '\r' →
        (jparse p = none ∨ ∃ v, jparse p = some v ∧ ¬ v.isObj) →
        runStream fmt [pre ++ ("data: " ++ p ++ "\n") ++ post]
          = runStream fmt [pre ++ post]) := by
  refine ⟨?_, ?_, ?_⟩
  · intro fmt st p hnr hbad
    exact processLine_skip_bad fmt st p hnr hbad
  · intro fmt st
    exact processLine_done fmt st
  · intro fmt pre post p hpre hnl hnr hbad
    have hmk : pre ++ String.mk (("data: ".data ++ p.data) ++ ['\n']) ++ post
        = pre ++ ("data: " ++ p ++ "\n") ++ post := by
      rcases p with ⟨pd⟩
      rfl
    have hnl2 : '\n' ∉ "data: ".data ++ p.data := by
      intro hmem
      rcases List.mem_append.mp hmem with h | h
      · exact absurd h (by decide)
      · exact hnl h
    have hinert : ∀ s : DecodeSt, processLine fmt s ("data: ".data ++ p.data) = .ok s :=
      fun s => processLine_skip_bad fmt s p.data hnr hbad
    have hrem := runStream_remove_inert_line fmt pre post ("data: ".data ++ p.data)
      hpre hnl2 hinert
    rw [hmk] at hrem
    exact hrem

theorem c5_malformed_frame_resilience_witness :
    processLine .anthropic initDec ("data: ".data ++ "\x7bnot json".data) = .ok initDec
    ∧ processLine .anthropic initDec ("data: [DONE]".data) = .ok initDec
    ∧ runStream .anthropic ["" ++ ("data: " ++ "42" ++ "\n") ++ "data: [DONE]\n"]
        = runStream .anthropic ["" ++ "data: [DONE]\n"] :=
  ⟨c5_malformed_frame_resilience.1 .anthropic initDec "\x7bnot json".data
    (by decide) (Or.inl rfl),
   c5_malformed_frame_resilience.2.1 .anthropic initDec,
   c5_malformed_frame_resilience.2.2 .anthropic "" "data: [DONE]\n" "42"
    (Or.inl rfl) (by decide) (by decide)
    (Or.inr ⟨.jnum 42, rfl, by decide⟩)⟩

/-! ## C4: the error taxonomy -/

theorem string_ne_of_data_get (s t : String) (i : Nat)
    (h : s.data[i]? ≠ t.data[i]?) : s ≠ t := by
  intro he
  exact h (by rw [he])

theorem errStr_get (s : String) (pre : String) (rest : List Char) (i : Nat) (c : Char)
    (hd : s.data = pre.data ++ rest) (hi : i < pre.data.length)
    (hc : pre.data[i]? = some c) :
    s.data[i]? = some c := by
  rw [hd, List.getElem?_append_left hi, hc]

/-- C4: the four failure strings of `send_request` are pairwise distinct
whatever their payloads (HTTP status errors, the catch-all wrapper around
thrown exceptions, the buffered JSON parse error, and the buffered shape
error), and each is produced on its own path: a non-success status yields
the status error, a decoder exception is caught and wrapped by the
catch-all, and an unparseable buffered body yields the parse error. -/
theorem c4_error_taxonomy :
    (∀ (w : String) (code : Nat) (body : String),
      caughtErrStr w ≠ httpStatusErrStr code body)
    ∧ (∀ (w m body : String), caughtErrStr w ≠ parseErrStr m body)
    ∧ (∀ (w body : String), caughtErrStr w ≠ shapeErrStr body)
    ∧ (∀ (code : Nat) (body m body2 : String),
        httpStatusErrStr code body ≠ parseErrStr m body2)
    ∧ (∀ (code : Nat) (body body2 : String),
        httpStatusErrStr code body ≠ shapeErrStr body2)
    ∧ (∀ (m body body2 : String), parseErrStr m body ≠ shapeErrStr body2)
    ∧ (∀ (fmt : LlmFormat) (status : Nat) (sb : String) (chunks : List String),
        status ≠ 200 →
        sendStreaming fmt status sb chunks = .error (httpStatusErrStr status sb))
    ∧ (∀ (fmt : LlmFormat) (sb : String) (chunks : List String) (e : String),
        decodeStream fmt chunks = .error e →
        sendStreaming fmt 200 sb chunks = .error (caughtErrStr e))
    ∧ (∀ (body : String), jparse body = none →
        decodeBuffered body = .error (parseErrStr "syntax error" body)) := by
  refine ⟨?_, ?_, ?_, ?_, ?_, ?_, ?_, ?_, ?_⟩
  · intro w code body
    refine string_ne_of_data_get _ _ 10 ?_
    rw [errStr_get (caughtErrStr w) "HTTP Error: " w.data 10 ':'
        (by simp [caughtErrStr, String.data_append]) (by decide) (by decide)]
    rw [errStr_get (httpStatusErrStr code body) "HTTP Error "
        ((toString code).data ++ (": ".data ++ body.data)) 10 ' '
        (by simp [httpStatusErrStr, String.data_append, List.append_assoc])
        (by decide) (by decide)]
    decide
  · intro w m body
    refine string_ne_of_data_get _ _ 0 ?_
    rw [errStr_get (caughtErrStr w) "HTTP Error: " w.data 0 'H'
        (by simp [caughtErrStr, String.data_append]) (by decide) (by decide)]
    rw [errStr_get (parseErrStr m body) "JSON Parse Error: "
        (m.data ++ ("\nResponse body:\n".data ++ body.data)) 0 'J'
        (by simp [parseErrStr, String.data_append, List.append_assoc])
        (by decide) (by decide)]
    decide
  · intro w body
    refine string_ne_of_data_get _ _ 0 ?_
    rw [errStr_get (caughtErrStr w) "HTTP Error: " w.data 0 'H'
        (by simp [caughtErrStr, String.data_append]) (by decide) (by decide)]
    rw [errStr_get (shapeErrStr body)
        "API Response is not a JSON object nor an object array.\nResponse body:\n"
        body.data 0 'A'
        (by simp [shapeErrStr, String.data_append]) (by decide) (by decide)]
    decide
  · intro code body m body2
    refine string_ne_of_data_get _ _ 0 ?_
    rw [errStr_get (httpStatusErrStr code body) "HTTP Error "
        ((toString code).data ++ (": ".data ++ body.data)) 0 'H'
        (by simp [httpStatusErrStr, String.data_append, List.append_assoc])
        (by decide) (by decide)]
    rw [errStr_get (parseErrStr m body2) "JSON Parse Error: "
        (m.data ++ ("\nResponse body:\n".data ++ body2.data)) 0 'J'
        (by simp [parseErrStr, String.data_append, List.append_assoc])
        (by decide) (by decide)]
    decide
  · intro code body body2
    refine string_ne_of_data_get _ _ 0 ?_
    rw [errStr_get (httpStatusErrStr code body) "HTTP Error "
        ((toString code).data ++ (": ".data ++ body.data)) 0 'H'
        (by simp [httpStatusErrStr, String.data_append, List.append_assoc])
        (by decide) (by decide)]
    rw [errStr_get (shapeErrStr body2)
        "API Response is not a JSON object nor an object array.\nResponse body:\n"
        body2.data 0 'A'
        (by simp [shapeErrStr, String.data_append]) (by decide) (by decide)]
    decide
  · intro m body body2
    refine string_ne_of_data_get _ _ 0 ?_
    rw [errStr_get (parseErrStr m body) "JSON Parse Error: "
        (m.data ++ ("\nResponse body:\n".data ++ body.data)) 0 'J'
        (by simp [parseErrStr, String.data_append, List.append_assoc])
        (by decide) (by decide)]
    rw [errStr_get (shapeErrStr body2)
        "API Response is not a JSON object nor an object array.\nResponse body:\n"
        body2.data 0 'A'
        (by simp [shapeErrStr, String.data_append]) (by decide) (by decide)]
    decide
  · intro fmt status sb chunks hs
    simp [sendStreaming, hs]
  · intro fmt sb chunks e h
    simp [sendStreaming, h]
  · intro body h
    simp [decodeBuffered, h]

theorem c4_error_taxonomy_witness :
    caughtErrStr "boom" ≠ httpStatusErrStr 404 "nf"
    ∧ caughtErrStr "boom" ≠ parseErrStr "syntax error" "b"
    ∧ parseErrStr "syntax error" "b" ≠ shapeErrStr "b"
    ∧ sendStreaming .anthropic 500 "oops" [] = .error (httpStatusErrStr 500 "oops")
    ∧ sendStreaming .anthropic 200 "" c10BadChunks = .error (caughtErrStr "json parse error")
    ∧ decodeBuffered "not json" = .error (parseErrStr "syntax error" "not json") :=
  ⟨c4_error_taxonomy.1 "boom" 404 "nf",
   c4_error_taxonomy.2.1 "boom" "syntax error" "b",
   c4_error_taxonomy.2.2.2.2.2.1 "syntax error" "b" "b",
   c4_error_taxonomy.2.2.2.2.2.2.1 .anthropic 500 "oops" [] (by decide),
   c4_error_taxonomy.2.2.2.2.2.2.2.1 .anthropic "" c10BadChunks "json parse error" rfl,
   c4_error_taxonomy.2.2.2.2.2.2.2.2 "not json" rfl⟩

/-! ## C2: block ordering of decoded responses -/

/-- C2: the decoded response's content is always the optional text block
first, then the tool blocks: an Anthropic-style decode assembles the
optional non-empty `final_text` block followed by the completed blocks,
each of which is a `tool_use` block; an OpenAI-style assembled response
normalizes to the optional text block followed by the normalized
`tool_calls`, and every block the tool-call normalization produces is a
`tool_use` block. -/
theorem c2_block_ordering :
    (∀ (chunks : List String) (st : StreamSt),
      runStream .anthropic chunks = .ok st →
      assembleResp .anthropic st.dec
        = .jobj (.cons "content" (.jarr (JItems.ofList
            ((if st.dec.final_text ≠ "" then [textBlock st.dec.final_text] else [])
              ++ st.dec.anthropic_content))) .nil)
      ∧ ∀ b ∈ st.dec.anthropic_content, isToolUseBlockJ b)
    ∧ (∀ (d : DecodeSt) (fs : JFields),
        assembleResp .openai d = .jobj fs →
        normalizeOpenaiResp fs
          = (d.openai_tool_calls.foldlM normalizeToolCall []).map
              (fun tbs => Jv.jobj (.cons "content" (.jarr (JItems.ofList
                ((if d.final_text ≠ "" then [textBlock d.final_text] else [])
                  ++ tbs))) .nil)))
    ∧ (∀ (tcs tbs : List Jv), tcs.foldlM normalizeToolCall [] = .ok tbs →
        ∀ b ∈ tbs, isToolUseBlockJ b) := by
  refine ⟨?_, ?_, ?_⟩
  · intro chunks st h
    exact ⟨rfl, (runStream_anth_inv chunks st h).1⟩
  · intro d fs hfs
    exact normalize_assembled d fs hfs
  · exact foldlM_normalizeToolCall_blocks

/-- An interleaved Anthropic-style stream: a text delta, then a full
`tool_use` block with empty-object arguments. -/
def c2AnthChunks : List String :=
  ["data: \x7b\"type\":\"content_block_delta\",\"delta\":\x7b\"type\":\"text_delta\",\"text\":\"Hi\"\x7d\x7d\n",
   "data: \x7b\"type\":\"content_block_start\",\"content_block\":\x7b\"type\":\"tool_use\",\"id\":\"t1\",\"name\":\"bash\"\x7d\x7d\n",
   "data: \x7b\"type\":\"content_block_delta\",\"delta\":\x7b\"type\":\"input_json_delta\",\"partial_json\":\"\x7b\x7d\"\x7d\x7d\n",
   "data: \x7b\"type\":\"content_block_stop\"\x7d\n"]

/-- The loop state the interleaved Anthropic stream ends in. -/
def c2AnthSt : StreamSt :=
  { accumulated_body := [],
    dec := { final_text := "Hi",
             anthropic_content := [.jobj (mkAnthTool (.jstr "t1") (.jstr "bash"))],
             openai_tool_calls := [],
             current_anthropic_tool := .nil,
             current_openai_tool := .nil,
             current_tool_args := "\x7b\x7d",
             emitted := ["Hi"] } }

/-- A decoder state as left by an OpenAI-style stream after the end-of-stream
flush: one finished tool call and some final text. -/
def c2OaiD : DecodeSt :=
  { final_text := "Hi",
    anthropic_content := [],
    openai_tool_calls := [.jobj (mkOpenTool (.jstr "c1") (.jstr "bash") "\x7b\x7d")],
    current_anthropic_tool := .nil,
    current_openai_tool := mkOpenTool (.jstr "c1") (.jstr "bash") "\x7b\x7d",
    current_tool_args := "\x7b\x7d",
    emitted := ["Hi"] }

theorem c2_block_ordering_witness :
    (assembleResp .anthropic c2AnthSt.dec
      = .jobj (.cons "content" (.jarr (JItems.ofList
          ((if c2AnthSt.dec.final_text ≠ "" then [textBlock c2AnthSt.dec.final_text] else [])
            ++ c2AnthSt.dec.anthropic_content))) .nil)
     ∧ isToolUseBlockJ (.jobj (mkAnthTool (.jstr "t1") (.jstr "bash"))))
    ∧ (∀ fs, assembleResp .openai c2OaiD = .jobj fs →
        normalizeOpenaiResp fs
          = (c2OaiD.openai_tool_calls.foldlM normalizeToolCall []).map
              (fun tbs => Jv.jobj (.cons "content" (.jarr (JItems.ofList
                ((if c2OaiD.final_text ≠ "" then [textBlock c2OaiD.final_text] else [])
                  ++ tbs))) .nil)))
    ∧ (∀ tbs, c2OaiD.openai_tool_calls.foldlM normalizeToolCall [] = .ok tbs →
        ∀ b ∈ tbs, isToolUseBlockJ b) :=
  ⟨⟨(c2_block_ordering.1 c2AnthChunks c2AnthSt rfl).1,
    (c2_block_ordering.1 c2AnthChunks c2AnthSt rfl).2
      (.jobj (mkAnthTool (.jstr "t1") (.jstr "bash"))) (by decide)⟩,
   fun fs hfs => c2_block_ordering.2.1 c2OaiD fs hfs,
   fun tbs h => c2_block_ordering.2.2 c2OaiD.openai_tool_calls tbs h⟩

/-! ## C9: the OpenAI payload translation -/

/-- The `role` field of an object value. -/
def jvRole (v : Jv) : Option Jv :=
  match v with
  | .jobj fs => fs.get? "role"
  | _ => none

theorem specTranslateMsg_not_system (msg : ChatMsg) :
    ∀ m ∈ specTranslateMsg msg, jvRole m ≠ some (.jstr "system") := by
  rcases msg with ⟨role, content⟩
  cases role <;> cases content <;> intro m hm
  · simp only [specTranslateMsg, List.mem_singleton] at hm
    subst hm
    simp [jvRole, JFields.ofList, JFields.get?]
  · simp only [specTranslateMsg] at hm
    rcases List.mem_filterMap.mp hm with ⟨b, _, hb⟩
    cases b <;> simp only [toolResultMsg?, Option.some.injEq, reduceCtorEq] at hb
    subst hb
    simp [jvRole, JFields.ofList, JFields.get?]
  · simp only [specTranslateMsg, List.mem_singleton] at hm
    subst hm
    simp [jvRole, JFields.ofList, JFields.get?]
  · simp only [specTranslateMsg, List.mem_singleton] at hm
    subst hm
    simp [jvRole, specAsstMsg, JFields.ofList, JFields.get?]

/-- C9: `build_openai_payload` translates the canonical conversation exactly
as the spec describes: the messages array is a single synthetic leading
system message followed by the in-order spec translation of each canonical
message (user strings passed through; user tool results exploded into tool
messages; assistant turns flattened to concatenated text plus `tool_calls`
with serialized arguments, each part omitted when empty), and no translated
message carries the system role. -/
theorem c9_payload_translation (sys : String) (convo : List ChatMsg) :
    buildOpenaiMsgs sys (convo.map encodeMsg)
      = .ok (systemMsgJv sys :: convo.flatMap specTranslateMsg)
    ∧ jvRole (systemMsgJv sys) = some (.jstr "system")
    ∧ ∀ m ∈ convo.flatMap specTranslateMsg, jvRole m ≠ some (.jstr "system") := by
  refine ⟨buildOpenaiMsgs_spec sys convo, ?_, ?_⟩
  · simp [jvRole, systemMsgJv, JFields.ofList, JFields.get?]
  · intro m hm
    rcases List.mem_flatMap.mp hm with ⟨msg, _, hmem⟩
    exact specTranslateMsg_not_system msg m hmem

theorem c9_payload_translation_witness :
    buildOpenaiMsgs "be brief" (([⟨.user, .str "hi"⟩] : List ChatMsg).map encodeMsg)
      = .ok (systemMsgJv "be brief"
          :: ([⟨.user, .str "hi"⟩] : List ChatMsg).flatMap specTranslateMsg)
    ∧ jvRole (systemMsgJv "be brief") = some (.jstr "system")
    ∧ jvRole (.jobj (JFields.ofList [("role", .jstr "user"), ("content", .jstr "hi")]))
        ≠ some (.jstr "system") :=
  ⟨(c9_payload_translation "be brief" [⟨.user, .str "hi"⟩]).1,
   (c9_payload_translation "be brief" [⟨.user, .str "hi"⟩]).2.1,
   (c9_payload_translation "be brief" [⟨.user, .str "hi"⟩]).2.2 _ (by decide)⟩

/-! ## C8: buffered-response shape handling -/

/-- C8 counterexample: the buffered path unwraps a two-element array whose
first element is an object, so the unwrap is not conditioned on the array
being one-element. -/
theorem c8_buffered_shape_counterexample :
    jparse "[\x7b\x7d,\x7b\x7d]"
      = some (.jarr (.cons (.jobj .nil) (.cons (.jobj .nil) .nil)))
    ∧ decodeBuffered "[\x7b\x7d,\x7b\x7d]" = .ok (.jobj .nil) :=
  ⟨rfl, rfl⟩

/-- C8 (amended): after parsing the buffered body, a non-empty array whose
first element is an object — of any length, not only one-element — is
unwrapped to that first object; a parsed top-level object is returned as
is; any other parsed value fails with the shape error carrying the raw
body; and a parse failure fails with the parse error carrying the raw
body. -/
theorem c8_buffered_shape (body : String) :
    (∀ (o : JFields) (rest : JItems),
      jparse body = some (.jarr (.cons (.jobj o) rest)) →
      decodeBuffered body = .ok (.jobj o))
    ∧ (∀ (o : JFields), jparse body = some (.jobj o) →
        decodeBuffered body = .ok (.jobj o))
    ∧ (∀ (v : Jv), jparse body = some v → ¬ v.isObj →
        (∀ (o : JFields) (rest : JItems), v ≠ .jarr (.cons (.jobj o) rest)) →
        decodeBuffered body = .error (shapeErrStr body))
    ∧ (jparse body = none →
        decodeBuffered body = .error (parseErrStr "syntax error" body)) := by
  refine ⟨?_, ?_, ?_, ?_⟩
  · intro o rest h
    unfold decodeBuffered
    rw [h]
  · intro o h
    unfold decodeBuffered
    rw [h]
  · intro v h hno hnarr
    unfold decodeBuffered
    rw [h]
    cases v with
    | jnull => rfl
    | jbool b => rfl
    | jnum n => rfl
    | jstr s => rfl
    | jobj o => simp [Jv.isObj] at hno
    | jarr es =>
      cases es with
      | nil => rfl
      | cons hd tl =>
        cases hd with
        | jobj o => exact absurd rfl (hnarr o tl)
        | jnull => rfl
        | jbool b => rfl
        | jnum n => rfl
        | jstr s => rfl
        | jarr es2 => rfl
  · intro h
    unfold decodeBuffered
    rw [h]

theorem c8_buffered_shape_witness :
    decodeBuffered "[\x7b\"a\":1\x7d]" = .ok (.jobj (.cons "a" (.jnum 1) .nil))
    ∧ decodeBuffered "\x7b\x7d" = .ok (.jobj .nil)
    ∧ decodeBuffered "3" = .error (shapeErrStr "3")
    ∧ decodeBuffered "x" = .error (parseErrStr "syntax error" "x") :=
  ⟨(c8_buffered_shape "[\x7b\"a\":1\x7d]").1 (.cons "a" (.jnum 1) .nil) .nil rfl,
   (c8_buffered_shape "\x7b\x7d").2.1 .nil rfl,
   (c8_buffered_shape "3").2.2.1 (.jnum 3) rfl (by decide)
     (fun o rest h => Jv.noConfusion h),
   (c8_buffered_shape "x").2.2.2 rfl⟩

/-! ## C1: the assistant-message round trip -/

/-- C1 counterexample: an assistant message with two Text blocks does not
round-trip to its original blocks — the builder concatenates the text, so
the normalizer returns a single merged Text block. -/
theorem c1_roundtrip_counterexample :
    roundTripAssistant "s" [.text "a", .text "b", .toolUse "t1" "bash" (.jobj .nil)]
      = .ok (.jobj (.cons "content" (.jarr (JItems.ofList
          [textBlock "ab", encodeBlock (.toolUse "t1" "bash" (.jobj .nil))])) .nil))
    ∧ [textBlock "ab", encodeBlock (.toolUse "t1" "bash" (.jobj .nil))]
        ≠ ([.text "a", .text "b", .toolUse "t1" "bash" (.jobj .nil)]
            : List ContentBlock).map encodeBlock :=
  ⟨rfl, by decide⟩

/-- C1 (amended): the round trip is exact for assistant messages already in
the normalizer's canonical shape — one non-empty Text block first, then
ToolUse blocks whose `input` values are JSON objects: building the OpenAI
payload from such a message and normalizing a synthetic response made from
the translated assistant message reproduces every original block, the
structured ToolUse `input` values included. -/
theorem c1_roundtrip_canonical (sys t : String) (tus : List ContentBlock)
    (ht : t ≠ "")
    (htus : ∀ b ∈ tus, ∃ i nm o, b = ContentBlock.toolUse i nm (.jobj o)) :
    roundTripAssistant sys (ContentBlock.text t :: tus)
      = .ok (.jobj (.cons "content" (.jarr (JItems.ofList
          ((ContentBlock.text t :: tus).map encodeBlock))) .nil)) := by
  rw [roundTripAssistant_eq]
  have hct : specConcatText (ContentBlock.text t :: tus) = t := by
    rw [specConcatText_cons, specConcatText_tools tus htus]
    simp [specTextOf, String.append_empty]
  have hfm : (ContentBlock.text t :: tus).filterMap specToolCallOf
      = tus.filterMap specToolCallOf := by
    rw [List.filterMap_cons]
    simp [specToolCallOf]
  rw [hct, hfm, normalize_synthetic, foldlM_normalize_spec_calls tus [] htus]
  simp [Except.map, ht, textBlock, encodeBlock]

theorem c1_roundtrip_canonical_witness :
    ("hello" : String) ≠ ""
    ∧ roundTripAssistant "sys" [ContentBlock.text "hello", .toolUse "t1" "bash" (.jobj .nil)]
        = .ok (.jobj (.cons "content" (.jarr (JItems.ofList
            (([ContentBlock.text "hello", .toolUse "t1" "bash" (.jobj .nil)]
              : List ContentBlock).map encodeBlock))) .nil)) :=
  ⟨by decide,
   c1_roundtrip_canonical "sys" "hello" [.toolUse "t1" "bash" (.jobj .nil)]
     (by decide)
     (by
       intro b hb
       simp only [List.mem_singleton] at hb
       subst hb
       exact ⟨"t1", "bash", .nil, rfl⟩)⟩

/-! ## Concrete decoder states for the accumulator witnesses -/

/-- An Anthropic decode state with an open `tool_use` accumulator and a
partially received argument buffer. -/
def c6OpenSt : DecodeSt :=
  { initDec with
      current_anthropic_tool := mkAnthTool (.jstr "t1") (.jstr "bash"),
      current_tool_args := "\x7b\"cmd\":\"l" }

/-- An Anthropic decode state with an open accumulator and an empty
argument buffer. -/
def c6EmptySt : DecodeSt :=
  { initDec with current_anthropic_tool := mkAnthTool (.jstr "t1") (.jstr "bash") }

/-- An Anthropic decode state with an open accumulator and a complete
argument buffer. -/
def c6FullSt : DecodeSt :=
  { initDec with
      current_anthropic_tool := mkAnthTool (.jstr "t1") (.jstr "bash"),
      current_tool_args := "\x7b\"cmd\":\"ls\"\x7d" }

theorem c6_incremental_args_witness :
    processEvent .anthropic c6OpenSt (anthArgsEvt "s\"\x7d")
      = .ok { c6OpenSt with current_tool_args := c6OpenSt.current_tool_args ++ "s\"\x7d" }
    ∧ processEvent .anthropic c6EmptySt anthStopEvt
      = .ok { c6EmptySt with
          anthropic_content := c6EmptySt.anthropic_content
            ++ [.jobj (mkAnthTool (.jstr "t1") (.jstr "bash"))],
          current_anthropic_tool := .nil }
    ∧ processEvent .anthropic c6FullSt anthStopEvt
      = .ok { c6FullSt with
          anthropic_content := c6FullSt.anthropic_content
            ++ [.jobj (c6FullSt.current_anthropic_tool.set "input"
                 (.jobj (.cons "cmd" (.jstr "ls") .nil)))],
          current_anthropic_tool := .nil } :=
  ⟨c6_incremental_args.1 c6OpenSt "s\"\x7d" (by decide),
   c6_incremental_args.2.1 c6EmptySt (.jstr "t1") (.jstr "bash") (by decide) (by decide),
   c6_incremental_args.2.2.1 c6FullSt "\x7b\"cmd\":\"ls\"\x7d"
     (.jobj (.cons "cmd" (.jstr "ls") .nil)) (by decide) (by decide) (by decide) (by decide)⟩

/-- An OpenAI decode state with an open tool-call accumulator and a
buffered arguments string. -/
def c7OpenSt : DecodeSt :=
  { initDec with
      current_openai_tool := mkOpenTool (.jstr "c1") (.jstr "bash") "",
      current_tool_args := "\x7b\x7d" }

theorem c7_openai_accumulation_witness :
    processToolCallDelta initDec (.jobj (JFields.ofList
      [("id", .jstr "c1"), ("function", .jobj (JFields.ofList [("name", .jstr "bash")]))]))
      = .ok { initDec with
          current_openai_tool := mkOpenTool (.jstr "c1") (.jstr "bash") "",
          current_tool_args := "" }
    ∧ processToolCallDelta c7OpenSt (.jobj (JFields.ofList
        [("id", .jstr "c2"), ("function", .jobj (JFields.ofList [("name", .jstr "ls")]))]))
        = .ok { c7OpenSt with
            openai_tool_calls := c7OpenSt.openai_tool_calls
              ++ [.jobj (mkOpenTool (.jstr "c1") (.jstr "bash") c7OpenSt.current_tool_args)],
            current_openai_tool := mkOpenTool (.jstr "c2") (.jstr "ls") "",
            current_tool_args := "" }
    ∧ processToolCallDelta c7OpenSt (.jobj (JFields.ofList
        [("function", .jobj (JFields.ofList [("arguments", .jstr "x")]))]))
        = .ok { c7OpenSt with current_tool_args := c7OpenSt.current_tool_args ++ "x" }
    ∧ flushOpenaiTool c7OpenSt
        = .ok { c7OpenSt with
            openai_tool_calls := c7OpenSt.openai_tool_calls
              ++ [.jobj (mkOpenTool (.jstr "c1") (.jstr "bash") c7OpenSt.current_tool_args)],
            current_openai_tool := mkOpenTool (.jstr "c1") (.jstr "bash") c7OpenSt.current_tool_args } :=
  ⟨c7_openai_accumulation.1 initDec (.jstr "c1") (.jstr "bash") (by decide),
   c7_openai_accumulation.2.1 c7OpenSt (.jstr "c2") (.jstr "ls") (.jstr "c1") (.jstr "bash") "" (by decide),
   c7_openai_accumulation.2.2.1 c7OpenSt "x",
   c7_openai_accumulation.2.2.2.2 c7OpenSt (.jstr "c1") (.jstr "bash") "" (by decide)⟩

/-- An Anthropic decode state whose argument buffer is not valid JSON. -/
def c10St : DecodeSt :=
  { initDec with
      current_anthropic_tool := mkAnthTool (.jstr "t1") (.jstr "bash"),
      current_tool_args := "\x7bbad" }

theorem c10_malformed_args_abort_witness :
    processEvent .anthropic c10St anthStopEvt = .error "json parse error"
    ∧ sendStreaming .anthropic 200 "" c10BadChunks
        = .error (caughtErrStr "json parse error") :=
  ⟨c10_malformed_args_abort.1 c10St "\x7bbad" (by decide) (by decide) (by decide) (by decide),
   c10_malformed_args_abort.2.1 .anthropic "" c10BadChunks "json parse error" rfl⟩
